import Mathlib

/-!
Verification of the buffered bzip2 file layer (`bz2file.py`).

The module embeds the `BZ2File` class of `src/bz2file.py` as explicit
state-passing functions over a `BZ2File` record.  The external block codec
(python's `bz2.BZ2Compressor` / `bz2.BZ2Decompressor`) is not part of the
repository; it is modelled from the spec as an opaque self-delimiting
framing codec (see `escEncode` / `runDecomp`) that satisfies the contract
the spec states: push-bytes compression, `flush` emitting the end-of-stream
marker, streaming decompression that reports trailing unused input after
its own end marker, and an end-of-stream error when fed after completion.

Python exceptions are modelled by the `Res` type: a result together with
the post-state (an exception leaves whatever mutations already happened,
exactly as in Python).  Loops (`_fill_buffer`, `_read_all`, `_read_block`)
are embedded with an explicit fuel argument; the public wrappers supply a
fuel computed from the state that is proved sufficient in the theorems
below (the fuel-exhaustion branches are unreachable there).
-/

/-- Error taxonomy of the module: `valueError` covers `ValueError`
(closed resource, invalid argument), `unsupportedOperation` covers
`io.UnsupportedOperation`, `eofError` covers `EOFError` (truncated
stream and codec end-of-stream). -/
inductive Err where
  | valueError (msg : String)
  | typeError (msg : String)
  | unsupportedOperation (msg : String)
  | eofError (msg : String)
deriving Repr, DecidableEq

/-- Result of one feeding of raw bytes to the streaming decoder:
decoded output, whether the end-of-stream marker was reached, the
pending escape state, and the unused trailing input after the marker. -/
structure DecompRes where
  out : List Nat
  fin : Bool
  esc : Bool
  unused : List Nat
deriving Repr, DecidableEq

/-- Modelled from the spec: the external block codec's streaming decoder.
The modelled wire format escapes byte 255 as `[255, 255]` and terminates a
logical stream with `[255, 0]`; everything after the terminator is
reported as unused trailing input.  `esc` is true when the previous chunk
ended on an unconsumed escape byte. -/
def runDecomp : Bool → List Nat → DecompRes
  | esc, [] => ⟨[], false, esc, []⟩
  | false, b :: rest =>
    if b == 255 then runDecomp true rest
    else
      let r := runDecomp false rest
      ⟨b :: r.out, r.fin, r.esc, r.unused⟩
  | true, b :: rest =>
    if b == 0 then ⟨[], true, false, rest⟩
    else
      let r := runDecomp false rest
      ⟨b :: r.out, r.fin, r.esc, r.unused⟩

/-- Modelled from the spec: the external block codec's compression of a
chunk of plaintext (byte 255 is escaped, other bytes are verbatim). -/
def escEncode : List Nat → List Nat
  | [] => []
  | b :: rest => if b == 255 then 255 :: 255 :: escEncode rest else b :: escEncode rest

/-- Modelled from the spec: the state of one live decompressor session
(`bz2.BZ2Decompressor`): pending escape state, whether the session reached
its end-of-stream marker, and the unused trailing input after it. -/
structure BZ2Decompressor where
  esc : Bool
  finished : Bool
  unused_data : List Nat
deriving Repr, DecidableEq

/-- A freshly constructed decompressor session. -/
def BZ2Decompressor.new : BZ2Decompressor := ⟨false, false, []⟩

/-- Modelled from the spec: feeding raw bytes to a decompressor session.
Raises `EOFError` when the session already reached its end-of-stream
marker; otherwise returns the decoded bytes and the advanced session. -/
def BZ2Decompressor.decompress (d : BZ2Decompressor) (data : List Nat) :
    Except Err (List Nat × BZ2Decompressor) :=
  if d.finished then .error (Err.eofError "End of stream already reached")
  else
    let r := runDecomp d.esc data
    .ok (r.out, ⟨r.esc, r.fin, r.unused⟩)

/-- Modelled from the spec: one live compressor session
(`bz2.BZ2Compressor`), carrying its compression level. -/
structure BZ2Compressor where
  compresslevel : Int
deriving Repr, DecidableEq

/-- Modelled from the spec: compressing a chunk (output emitted at once). -/
def BZ2Compressor.compress (_c : BZ2Compressor) (data : List Nat) : List Nat :=
  escEncode data

/-- Modelled from the spec: finalizing the compressor emits the
end-of-stream marker of the modelled wire format. -/
def BZ2Compressor.flush (_c : BZ2Compressor) : List Nat := [255, 0]

/-- Mode constant `_MODE_CLOSED` (line 22). -/
def _MODE_CLOSED : Nat := 0
/-- Mode constant `_MODE_READ` (line 23). -/
def _MODE_READ : Nat := 1
/-- Mode constant `_MODE_READ_EOF` (line 24). -/
def _MODE_READ_EOF : Nat := 2
/-- Mode constant `_MODE_WRITE` (line 25). -/
def _MODE_WRITE : Nat := 3

/-- Read chunk size `_BUFFER_SIZE` (line 27). -/
def _BUFFER_SIZE : Nat := 8192

/-- State of one `BZ2File` handle.  The underlying endpoint is modelled
in-line: `fpContent`/`fpPos` are the readable endpoint's bytes and read
cursor, `fpWritten` accumulates the writable endpoint's bytes, and
`fpCloseCount` counts how many times the endpoint's `close()` was called
(to state the no-double-release property).  `buffer = []` models both
`self._buffer = None` and an empty buffer: the code only ever tests the
buffer for truthiness, which identifies the two. -/
structure BZ2File where
  fpContent : List Nat
  fpPos : Nat
  fpWritten : List Nat
  fpCloseCount : Nat
  closefp : Bool
  mode : Nat
  pos : Nat
  size : Int
  decompressor : Option BZ2Decompressor
  compressor : Option BZ2Compressor
  buffer : List Nat
deriving Repr, DecidableEq

/-- Result of one operation on a handle: Python exceptions carry the
post-state (whatever mutations already happened stay in place). -/
inductive Res (α : Type) where
  | ok (a : α) (f : BZ2File)
  | err (e : Err) (f : BZ2File)
deriving Repr, DecidableEq

namespace BZ2File

/-- Constructor `BZ2File.__init__` (lines 45-105).  `content` is the
borrowed/opened endpoint's bytes (for read modes); `owns` models the
str-filename case where the endpoint is opened internally and hence owned
(`self._closefp = True`).  The compresslevel range check (lines 77-78)
precedes the mode dispatch (lines 80-94), as in the source. -/
def init (mode : String) (compresslevel : Int) (owns : Bool) (content : List Nat) :
    Except Err BZ2File :=
  let base : BZ2File :=
    { fpContent := content, fpPos := 0, fpWritten := [], fpCloseCount := 0,
      closefp := owns, mode := _MODE_CLOSED, pos := 0, size := -1,
      decompressor := none, compressor := none, buffer := [] }
  if ¬(1 ≤ compresslevel ∧ compresslevel ≤ 9) then
    .error (Err.valueError "compresslevel must be between 1 and 9")
  else if mode == "" || mode == "r" || mode == "rb" then
    .ok { base with mode := _MODE_READ, decompressor := some BZ2Decompressor.new }
  else if mode == "w" || mode == "wb" then
    .ok { base with mode := _MODE_WRITE, compressor := some ⟨compresslevel⟩ }
  else if mode == "a" || mode == "ab" then
    .ok { base with mode := _MODE_WRITE, compressor := some ⟨compresslevel⟩ }
  else
    .error (Err.valueError "Invalid mode")

/-- `close` (lines 107-130): flush the compressor on write handles, close
the endpoint iff owned, clear everything; a second call returns at the
`_MODE_CLOSED` guard. -/
def close (f : BZ2File) : BZ2File :=
  if f.mode == _MODE_CLOSED then f
  else
    let f₁ :=
      if f.mode == _MODE_READ || f.mode == _MODE_READ_EOF then
        { f with decompressor := none }
      else if f.mode == _MODE_WRITE then
        { f with
          fpWritten := f.fpWritten ++ (match f.compressor with
            | some c => c.flush
            | none => []),
          compressor := none }
      else f
    let f₂ := if f₁.closefp then { f₁ with fpCloseCount := f₁.fpCloseCount + 1 } else f₁
    { f₂ with closefp := false, mode := _MODE_CLOSED, buffer := [] }

/-- `closed` property (lines 132-135). -/
def closed (f : BZ2File) : Bool := f.mode == _MODE_CLOSED

/-- `readable` before wrapping into `Res` (lines 151-154): raises on a
closed handle, else reports whether the handle is in a read mode. -/
def readableE (f : BZ2File) : Except Err Bool :=
  if closed f then .error (Err.valueError "I/O operation on closed file")
  else .ok (f.mode == _MODE_READ || f.mode == _MODE_READ_EOF)

/-- `writable` before wrapping into `Res` (lines 156-159). -/
def writableE (f : BZ2File) : Except Err Bool :=
  if closed f then .error (Err.valueError "I/O operation on closed file")
  else .ok (f.mode == _MODE_WRITE)

/-- Public `readable()`. -/
def readable (f : BZ2File) : Res Bool :=
  match readableE f with
  | .ok b => .ok b f
  | .error e => .err e f

/-- Public `writable()`. -/
def writable (f : BZ2File) : Res Bool :=
  match writableE f with
  | .ok b => .ok b f
  | .error e => .err e f

/-- `seekable` (lines 142-149): delegates to `readable()` (which raises on
a closed handle); the underlying endpoint is modelled as seekable. -/
def seekable (f : BZ2File) : Res Bool :=
  match readableE f with
  | .error e => .err e f
  | .ok false => .ok false f
  | .ok true => .ok true f

/-- `fileno` (lines 137-140): the endpoint's descriptor is modelled as 0. -/
def fileno (f : BZ2File) : Res Nat :=
  if closed f then .err (Err.valueError "I/O operation on closed file") f
  else .ok 0 f

/-- `_check_can_read` (lines 167-169). -/
def _check_can_read (f : BZ2File) : Except Err Unit :=
  match readableE f with
  | .error e => .error e
  | .ok false => .error (Err.unsupportedOperation "File not open for reading")
  | .ok true => .ok ()

/-- `_check_can_write` (lines 171-173). -/
def _check_can_write (f : BZ2File) : Except Err Unit :=
  match writableE f with
  | .error e => .error e
  | .ok false => .error (Err.unsupportedOperation "File not open for writing")
  | .ok true => .ok ()

/-- `_check_can_seek` (lines 175-181); the endpoint is modelled as
seekable, so only the readability check can fail. -/
def _check_can_seek (f : BZ2File) : Except Err Unit :=
  match readableE f with
  | .error e => .error e
  | .ok false => .error (Err.unsupportedOperation "Seeking is only supported on files open for reading")
  | .ok true => .ok ()

/-- `self._fp.read(n)` on the modelled endpoint. -/
def fpRead (f : BZ2File) (n : Nat) : List Nat × BZ2File :=
  let data := (f.fpContent.drop f.fpPos).take n
  (data, { f with fpPos := f.fpPos + data.length })

/-- Length of the unused trailing input held by the decompressor. -/
def unusedLen (f : BZ2File) : Nat :=
  match f.decompressor with
  | some d => d.unused_data.length
  | none => 0

/-- Fuel measure for the read loops: unread endpoint bytes plus pending
unused trailing input. -/
def measureF (f : BZ2File) : Nat := (f.fpContent.length - f.fpPos) + unusedLen f

/-- Lines 210-215: feed one raw block to the current decompressor; on
`EOFError` (session already finished) continue to the next stream by
re-feeding the block to a fresh session (the inner error branch is
unreachable: a fresh session is not finished). -/
def _decompress_block (f : BZ2File) (d : BZ2Decompressor) (rawblock : List Nat) : BZ2File :=
  match d.decompress rawblock with
  | .ok (out, d') => { f with decompressor := some d', buffer := out }
  | .error _ =>
    match BZ2Decompressor.new.decompress rawblock with
    | .ok (out, d') => { f with decompressor := some d', buffer := out }
    | .error _ => f

/-- `_fill_buffer` (lines 184-215), fuel-indexed.  The fuel-exhaustion
branch is unreachable when the fuel exceeds `measureF` (proved below). -/
def _fill_bufferF : Nat → BZ2File → Res Bool
  | 0, f => .err (Err.valueError "internal: fuel exhausted") f
  | fuel + 1, f =>
    if f.buffer.isEmpty then
      match f.decompressor with
      | none => .err (Err.valueError "internal: no decompressor") f
      | some d =>
        if d.unused_data.isEmpty then
          let (rawblock, f₁) := fpRead f _BUFFER_SIZE
          if rawblock.isEmpty then
            match d.decompress [] with
            | .error _ =>
              .ok false { f₁ with mode := _MODE_READ_EOF, size := (f₁.pos : Int) }
            | .ok _ =>
              .err (Err.eofError "Compressed file ended before the end-of-stream marker was reached") f₁
          else
            _fill_bufferF fuel (_decompress_block f₁ d rawblock)
        else
          let rawblock := d.unused_data
          let f₁ := { f with decompressor := some BZ2Decompressor.new }
          _fill_bufferF fuel (_decompress_block f₁ BZ2Decompressor.new rawblock)
    else .ok true f

/-- `_fill_buffer` with sufficient fuel. -/
def _fill_buffer (f : BZ2File) : Res Bool := _fill_bufferF (measureF f + 1) f

/-- `_read_all` (lines 219-227), fuel-indexed, accumulating into `acc`. -/
def _read_allF : Nat → Bool → List Nat → BZ2File → Res (List Nat)
  | 0, return_data, acc, f => .ok (if return_data then acc else []) f
  | fuel + 1, return_data, acc, f =>
    match _fill_buffer f with
    | .err e f' => .err e f'
    | .ok false f' => .ok (if return_data then acc else []) f'
    | .ok true f' =>
      _read_allF fuel return_data (acc ++ f'.buffer)
        { f' with pos := f'.pos + f'.buffer.length, buffer := [] }

/-- `_read_all` with sufficient fuel. -/
def _read_all (f : BZ2File) (return_data : Bool) : Res (List Nat) :=
  _read_allF (measureF f + f.buffer.length + 1) return_data [] f

/-- `_read_block` (lines 231-245), fuel-indexed, accumulating into `acc`. -/
def _read_blockF : Nat → Int → Bool → List Nat → BZ2File → Res (List Nat)
  | 0, _, return_data, acc, f => .ok (if return_data then acc else []) f
  | fuel + 1, n, return_data, acc, f =>
    if n ≤ 0 then .ok (if return_data then acc else []) f
    else
      match _fill_buffer f with
      | .err e f' => .err e f'
      | .ok false f' => .ok (if return_data then acc else []) f'
      | .ok true f' =>
        if n < (f'.buffer.length : Int) then
          let data := f'.buffer.take n.toNat
          _read_blockF fuel (n - data.length) return_data (acc ++ data)
            { f' with buffer := f'.buffer.drop n.toNat, pos := f'.pos + data.length }
        else
          let data := f'.buffer
          _read_blockF fuel (n - data.length) return_data (acc ++ data)
            { f' with buffer := [], pos := f'.pos + data.length }

/-- `_read_block` with sufficient fuel. -/
def _read_block (f : BZ2File) (n : Int) (return_data : Bool) : Res (List Nat) :=
  _read_blockF (measureF f + f.buffer.length + 1) n return_data [] f

/-- `peek` (lines 247-257). -/
def peek (f : BZ2File) : Res (List Nat) :=
  match _check_can_read f with
  | .error e => .err e f
  | .ok _ =>
    if f.mode == _MODE_READ_EOF then .ok [] f
    else
      match _fill_buffer f with
      | .err e f' => .err e f'
      | .ok false f' => .ok [] f'
      | .ok true f' => .ok f'.buffer f'

/-- `read` (lines 259-274). -/
def read (f : BZ2File) (size : Int) : Res (List Nat) :=
  match _check_can_read f with
  | .error e => .err e f
  | .ok _ =>
    if f.mode == _MODE_READ_EOF || size == 0 then .ok [] f
    else if size < 0 then _read_all f true
    else _read_block f size true

/-- `read1` (lines 276-297). -/
def read1 (f : BZ2File) (size : Int) : Res (List Nat) :=
  match _check_can_read f with
  | .error e => .err e f
  | .ok _ =>
    if size == 0 || f.mode == _MODE_READ_EOF then .ok [] f
    else
      match _fill_buffer f with
      | .err e f' => .err e f'
      | .ok false f' => .ok [] f'
      | .ok true f' =>
        if 0 < size ∧ size < (f'.buffer.length : Int) then
          let data := f'.buffer.take size.toNat
          .ok data { f' with buffer := f'.buffer.drop size.toNat, pos := f'.pos + data.length }
        else
          .ok f'.buffer { f' with buffer := [], pos := f'.pos + f'.buffer.length }

/-- `readinto` (lines 299-305).  Modelled from the spec: the buffered-I/O
mixin decomposes `readinto(b)` into `self.read(len(b))` plus a copy into
`b`; `blen` is `len(b)` and the returned count is the number of bytes read. -/
def readinto (f : BZ2File) (blen : Nat) : Res Nat :=
  match read f (blen : Int) with
  | .err e f' => .err e f'
  | .ok data f' => .ok data.length f'

/-- Fuel-indexed helper for `readline`. -/
def readlineF : Nat → List Nat → BZ2File → Res (List Nat)
  | 0, acc, f => .ok acc f
  | fuel + 1, acc, f =>
    match read f 1 with
    | .err e f' => .err e f'
    | .ok [] f' => .ok acc f'
    | .ok (b :: _) f' =>
      if b == 10 then .ok (acc ++ [b]) f'
      else readlineF fuel (acc ++ [b]) f'

/-- `readline` (lines 307-318).  Modelled from the spec: the buffered-I/O
mixin decomposes a line read into repeated primitive reads that stop at a
newline byte or at end of stream. -/
def readline (f : BZ2File) : Res (List Nat) :=
  readlineF (measureF f + f.buffer.length + 1) [] f

/-- Fuel-indexed helper for `readlines`. -/
def readlinesF : Nat → List (List Nat) → BZ2File → Res (List (List Nat))
  | 0, acc, f => .ok acc f
  | fuel + 1, acc, f =>
    match readline f with
    | .err e f' => .err e f'
    | .ok [] f' => .ok acc f'
    | .ok (b :: bs) f' => readlinesF fuel (acc ++ [b :: bs]) f'

/-- `readlines` (lines 320-331).  Modelled from the spec: the mixin calls
`readline` repeatedly until an empty result. -/
def readlines (f : BZ2File) : Res (List (List Nat)) :=
  readlinesF (measureF f + f.buffer.length + 1) [] f

/-- `write` (lines 333-345). -/
def write (f : BZ2File) (data : List Nat) : Res Nat :=
  match _check_can_write f with
  | .error e => .err e f
  | .ok _ =>
    match f.compressor with
    | none => .err (Err.valueError "internal: no compressor") f
    | some c =>
      let compressed := c.compress data
      .ok data.length
        { f with fpWritten := f.fpWritten ++ compressed, pos := f.pos + data.length }

/-- Loop of `writelines`: write each byte string in turn. -/
def writelinesLoop (f : BZ2File) : List (List Nat) → Res Unit
  | [] => .ok () f
  | line :: rest =>
    match write f line with
    | .err e f' => .err e f'
    | .ok _ f' => writelinesLoop f' rest

/-- `writelines` (lines 347-356).  Modelled from the spec: the mixin
checks for a closed handle and then writes each byte string via `write`. -/
def writelines (f : BZ2File) (seq : List (List Nat)) : Res Unit :=
  if closed f then .err (Err.valueError "I/O operation on closed file") f
  else writelinesLoop f seq

/-- `_rewind` (lines 358-364): endpoint back to start, mode back to
`_MODE_READ`, position 0, fresh decompressor, no buffer (`_size` is kept). -/
def _rewind (f : BZ2File) : BZ2File :=
  { f with fpPos := 0, mode := _MODE_READ, pos := 0,
           decompressor := some BZ2Decompressor.new, buffer := [] }

/-- Second half of `seek` (lines 397-407): turn the absolute target into a
forward skip (rewinding when the target is behind the position, as in the
source the skip count is left equal to the raw target after a rewind),
then discard-read forward unless already at confirmed end of stream. -/
def seekAbs (f : BZ2File) (offset : Int) : Res Int :=
  let p := if offset < (f.pos : Int) then (offset, _rewind f) else (offset - (f.pos : Int), f)
  if p.2.mode == _MODE_READ_EOF then .ok (p.2.pos : Int) p.2
  else
    match _read_block p.2 p.1 false with
    | .err e f₂ => .err e f₂
    | .ok _ f₂ => .ok (f₂.pos : Int) f₂

/-- `seek` (lines 366-407). -/
def seek (f : BZ2File) (offset : Int) (whence : Int) : Res Int :=
  match _check_can_seek f with
  | .error e => .err e f
  | .ok _ =>
    if whence == 0 then seekAbs f offset
    else if whence == 1 then seekAbs f ((f.pos : Int) + offset)
    else if whence == 2 then
      if f.size < 0 then
        match _read_all f false with
        | .err e f₁ => .err e f₁
        | .ok _ f₁ => seekAbs f₁ (f₁.size + offset)
      else seekAbs f (f.size + offset)
    else .err (Err.valueError "Invalid value for whence") f

/-- `tell` (lines 409-413). -/
def tell (f : BZ2File) : Res Int :=
  if closed f then .err (Err.valueError "I/O operation on closed file") f
  else .ok (f.pos : Int) f

end BZ2File

/-- Extract the handle from a construction result (total helper for
stating concrete counterexamples; the default is never used there). -/
def getHandle (r : Except Err BZ2File) : BZ2File :=
  match r with
  | .ok f => f
  | .error _ => ⟨[], 0, [], 0, false, 0, 0, -1, none, none, []⟩

/-- Extract the post-state from an operation result. -/
def resHandle {α : Type} (r : Res α) : BZ2File :=
  match r with
  | .ok _ f => f
  | .err _ f => f

/-- True when an operation result is an exception. -/
def isErr {α : Type} (r : Res α) : Bool :=
  match r with
  | .ok _ _ => false
  | .err _ _ => true

/-- Extract an operation result value, with a default for exceptions. -/
def okValD {α : Type} (dflt : α) (r : Res α) : α :=
  match r with
  | .ok a _ => a
  | .err _ _ => dflt

/-- Spec-side total decode of a byte source positioned at a stream
boundary, fuel-indexed: the decodable output together with a flag telling
whether the source terminates cleanly (every segment reaches its
end-of-stream marker and nothing trails after the last one).  An empty
source at a boundary is clean (zero further segments). -/
def drainCleanF : Nat → List Nat → List Nat × Bool
  | _, [] => ([], true)
  | 0, _ :: _ => ([], false)
  | fuel + 1, b :: rest =>
    let r := runDecomp false (b :: rest)
    if r.fin then
      let t := drainCleanF fuel r.unused
      (r.out ++ t.1, t.2)
    else (r.out, false)

/-- `drainCleanF` with sufficient fuel. -/
def drainClean (s : List Nat) : List Nat × Bool := drainCleanF s.length s

/-- Decodable output and clean-termination flag for one decompressor
session state followed by the remaining raw bytes of the source. -/
def drainD (d : BZ2Decompressor) (rest : List Nat) : List Nat × Bool :=
  if d.finished then drainClean (d.unused_data ++ rest)
  else
    let r := runDecomp d.esc rest
    if r.fin then
      let t := drainClean r.unused
      (r.out ++ t.1, t.2)
    else (r.out, false)

/-- Decodable output still ahead of a read handle (pending buffer, then
the decompressor session, then the unread endpoint bytes), with the
clean-termination flag. -/
def drain (f : BZ2File) : List Nat × Bool :=
  match f.decompressor with
  | none => ([], false)
  | some d =>
    let t := drainD d (f.fpContent.drop f.fpPos)
    (f.buffer ++ t.1, t.2)

/-- Decode of a whole source as seen by a fresh read handle (a fresh
decompressor session expects at least one segment, so an empty source is
not clean — it is truncation). -/
def sourceDrain (content : List Nat) : List Nat × Bool :=
  drainD BZ2Decompressor.new content

/-- Invariant of every decompressor session the code creates: unused
trailing input is only reported once the session finished. -/
def dInv (d : BZ2Decompressor) : Prop := d.finished = false → d.unused_data = []

instance (d : BZ2Decompressor) : Decidable (dInv d) := by
  unfold dInv; infer_instance

/-- `dInv` lifted to the optional decompressor field (`none` is ruled
out: read handles always hold a session). -/
def dInvOpt : Option BZ2Decompressor → Prop
  | some d => dInv d
  | none => False

instance : (o : Option BZ2Decompressor) → Decidable (dInvOpt o)
  | some _ => by unfold dInvOpt; infer_instance
  | none => by unfold dInvOpt; infer_instance

/-- A read handle in a consistent mid-stream state: over source `content`
whose full decode is `P` (cleanly terminated), positioned at logical
offset `t`. -/
def Reaches (content P : List Nat) (t : Nat) (f : BZ2File) : Prop :=
  f.fpContent = content ∧
  f.pos = t ∧
  t ≤ P.length ∧
  dInvOpt f.decompressor ∧
  drain f = (P.drop t, true) ∧
  (f.mode = _MODE_READ ∨ f.mode = _MODE_READ_EOF) ∧
  (f.size = -1 ∨ f.size = (P.length : Int)) ∧
  (f.mode = _MODE_READ_EOF → f.pos = P.length ∧ f.size = (P.length : Int))

instance (content P : List Nat) (t : Nat) (f : BZ2File) :
    Decidable (Reaches content P t f) := by
  unfold Reaches; infer_instance

namespace BZ2File

/-- Postcondition of one `_fill_buffer` call on a handle whose remaining
decodable data and clean-termination flag are `T`. -/
def FillPostRes (res : Res Bool) (f : BZ2File) (T : List Nat × Bool) : Prop :=
  match T with
  | (x :: xs, c) =>
    ∃ f' d', res = .ok true f' ∧ f'.buffer ≠ [] ∧ f'.decompressor = some d' ∧ dInv d' ∧
      drain f' = (x :: xs, c) ∧ f'.pos = f.pos ∧ f'.mode = f.mode ∧ f'.size = f.size ∧
      f'.fpContent = f.fpContent ∧ measureF f' + f'.buffer.length ≤ measureF f
  | ([], true) =>
    ∃ f' d', res = .ok false f' ∧ f'.mode = _MODE_READ_EOF ∧ f'.size = (f.pos : Int) ∧
      f'.pos = f.pos ∧ f'.buffer = [] ∧ f'.fpContent = f.fpContent ∧
      f'.decompressor = some d' ∧ dInv d' ∧ drain f' = ([], true)
  | ([], false) =>
    ∃ f', res = .err (Err.eofError "Compressed file ended before the end-of-stream marker was reached") f' ∧
      f'.mode = f.mode ∧ f'.size = f.size ∧ f'.pos = f.pos

/-- Postcondition of `_read_block`: slicing consumes exactly the request
when enough decodable data remains (leaving mode and size untouched), and
otherwise consumes everything and reaches confirmed end of stream when the
source terminates cleanly. -/
def ReadBlockPost (fuel : Nat) (n : Int) (rd : Bool) (acc : List Nat) (f : BZ2File) : Prop :=
  (n.toNat ≤ (drain f).1.length →
    ∃ f' d', _read_blockF fuel n rd acc f =
        .ok (if rd then acc ++ (drain f).1.take n.toNat else []) f' ∧
      f'.pos = f.pos + n.toNat ∧ f'.mode = f.mode ∧ f'.size = f.size ∧
      f'.fpContent = f.fpContent ∧ f'.decompressor = some d' ∧ dInv d' ∧
      drain f' = ((drain f).1.drop n.toNat, (drain f).2)) ∧
  ((drain f).1.length < n.toNat → (drain f).2 = true →
    ∃ f' d', _read_blockF fuel n rd acc f =
        .ok (if rd then acc ++ (drain f).1 else []) f' ∧
      f'.pos = f.pos + (drain f).1.length ∧ f'.mode = _MODE_READ_EOF ∧
      f'.size = ((f.pos + (drain f).1.length : Nat) : Int) ∧ f'.buffer = [] ∧
      f'.fpContent = f.fpContent ∧ f'.decompressor = some d' ∧ dInv d' ∧
      drain f' = ([], true))

end BZ2File

theorem runDecomp_nil (esc : Bool) : runDecomp esc [] = ⟨[], false, esc, []⟩ := by
  simp [runDecomp]

theorem runDecomp_fin_esc : ∀ (s : List Nat) (esc : Bool), (runDecomp esc s).fin = true → (runDecomp esc s).esc = false := by
  intro s
  induction s with
  | nil => intro esc h; simp [runDecomp] at h
  | cons b rest ih =>
    intro esc
    cases esc with
    | false =>
      by_cases hb : b = 255
      · subst hb; simpa [runDecomp] using ih true
      · simpa [runDecomp, hb] using ih false
    | true =>
      by_cases hb : b = 0
      · subst hb; simp [runDecomp]
      · simpa [runDecomp, hb] using ih false

theorem runDecomp_notfin_unused : ∀ (s : List Nat) (esc : Bool), (runDecomp esc s).fin = false → (runDecomp esc s).unused = [] := by
  intro s
  induction s with
  | nil => intro esc _; simp [runDecomp]
  | cons b rest ih =>
    intro esc
    cases esc with
    | false =>
      by_cases hb : b = 255
      · subst hb; simpa [runDecomp] using ih true
      · simpa [runDecomp, hb] using ih false
    | true =>
      by_cases hb : b = 0
      · subst hb; simp [runDecomp]
      · simpa [runDecomp, hb] using ih false

theorem runDecomp_len_le : ∀ (s : List Nat) (esc : Bool), (runDecomp esc s).out.length + (runDecomp esc s).unused.length ≤ s.length := by
  intro s
  induction s with
  | nil => intro esc; simp [runDecomp]
  | cons b rest ih =>
    intro esc
    cases esc with
    | false =>
      by_cases hb : b = 255
      · subst hb
        have := ih true
        simp only [runDecomp, beq_self_eq_true, if_true, List.length_cons]
        omega
      · have := ih false
        simp only [runDecomp, beq_iff_eq, hb, if_false, List.length_cons]
        omega
    | true =>
      by_cases hb : b = 0
      · subst hb; simp [runDecomp]
      · have := ih false
        simp only [runDecomp, beq_iff_eq, hb, if_false, List.length_cons]
        omega

theorem runDecomp_unused_le (s : List Nat) (esc : Bool) : (runDecomp esc s).unused.length ≤ s.length := by
  have := runDecomp_len_le s esc
  omega

theorem runDecomp_unused_lt : ∀ (s : List Nat) (esc : Bool), s ≠ [] → (runDecomp esc s).unused.length < s.length := by
  intro s
  cases s with
  | nil => intro esc h; exact absurd rfl h
  | cons b rest =>
    intro esc _
    cases esc with
    | false =>
      by_cases hb : b = 255
      · subst hb
        have := runDecomp_unused_le rest true
        simp only [runDecomp, beq_self_eq_true, if_true, List.length_cons]
        omega
      · have := runDecomp_unused_le rest false
        simp only [runDecomp, beq_iff_eq, hb, if_false, List.length_cons]
        omega
    | true =>
      by_cases hb : b = 0
      · subst hb; simp [runDecomp]
      · have := runDecomp_unused_le rest false
        simp only [runDecomp, beq_iff_eq, hb, if_false, List.length_cons]
        omega

theorem runDecomp_append : ∀ (a : List Nat) (esc : Bool) (b : List Nat),
    runDecomp esc (a ++ b) =
      if (runDecomp esc a).fin then
        ⟨(runDecomp esc a).out, true, false, (runDecomp esc a).unused ++ b⟩
      else
        ⟨(runDecomp esc a).out ++ (runDecomp (runDecomp esc a).esc b).out,
         (runDecomp (runDecomp esc a).esc b).fin,
         (runDecomp (runDecomp esc a).esc b).esc,
         (runDecomp (runDecomp esc a).esc b).unused⟩ := by
  intro a
  induction a with
  | nil =>
    intro esc b
    simp [runDecomp]
  | cons c rest ih =>
    intro esc b
    cases esc with
    | false =>
      by_cases hc : c = 255
      · subst hc
        simpa [runDecomp] using ih true b
      · have h := ih false b
        cases hfin : (runDecomp false rest).fin with
        | true => simp [runDecomp, hc, h, hfin]
        | false => simp [runDecomp, hc, h, hfin]
    | true =>
      by_cases hc : c = 0
      · subst hc
        simp [runDecomp]
      · have h := ih false b
        cases hfin : (runDecomp false rest).fin with
        | true => simp [runDecomp, hc, h, hfin]
        | false => simp [runDecomp, hc, h, hfin]

theorem runDecomp_encode : ∀ (B r : List Nat),
    runDecomp false (escEncode B ++ 255 :: 0 :: r) = ⟨B, true, false, r⟩ := by
  intro B
  induction B with
  | nil => intro r; simp [escEncode, runDecomp]
  | cons b rest ih =>
    intro r
    by_cases hb : b = 255
    · subst hb; simp [escEncode, runDecomp, ih r]
    · simp [escEncode, runDecomp, hb, ih r]

theorem drainCleanF_congr : ∀ (fuel₁ : Nat) (s : List Nat) (fuel₂ : Nat),
    s.length ≤ fuel₁ → s.length ≤ fuel₂ → drainCleanF fuel₁ s = drainCleanF fuel₂ s := by
  intro fuel₁
  induction fuel₁ with
  | zero =>
    intro s fuel₂ h₁ _
    have : s = [] := List.eq_nil_of_length_eq_zero (Nat.le_zero.mp h₁)
    subst this
    cases fuel₂ <;> simp [drainCleanF]
  | succ k ih =>
    intro s fuel₂ h₁ h₂
    cases s with
    | nil => cases fuel₂ <;> simp [drainCleanF]
    | cons b rest =>
      cases fuel₂ with
      | zero => simp at h₂
      | succ m =>
        simp only [drainCleanF]
        have hlt := runDecomp_unused_lt (b :: rest) false (by simp)
        have hk : (runDecomp false (b :: rest)).unused.length ≤ k := by
          simp only [List.length_cons] at h₁ hlt ⊢; omega
        have hm : (runDecomp false (b :: rest)).unused.length ≤ m := by
          simp only [List.length_cons] at h₂ hlt ⊢; omega
        rw [ih _ m hk hm]

theorem drainCleanF_eq (fuel : Nat) (s : List Nat) (h : s.length ≤ fuel) :
    drainCleanF fuel s = drainClean s :=
  drainCleanF_congr fuel s s.length h (Nat.le_refl _)

theorem drainClean_cons (b : Nat) (rest : List Nat) :
    drainClean (b :: rest) =
      if (runDecomp false (b :: rest)).fin then
        ((runDecomp false (b :: rest)).out ++ (drainClean (runDecomp false (b :: rest)).unused).1,
         (drainClean (runDecomp false (b :: rest)).unused).2)
      else ((runDecomp false (b :: rest)).out, false) := by
  have hlt := runDecomp_unused_lt (b :: rest) false (by simp)
  simp only [List.length_cons] at hlt
  show drainCleanF (b :: rest).length (b :: rest) = _
  simp only [List.length_cons, drainCleanF]
  rw [drainCleanF_eq rest.length _ (by omega)]

theorem drainClean_ne_nil (s : List Nat) (h : s ≠ []) :
    drainClean s =
      if (runDecomp false s).fin then
        ((runDecomp false s).out ++ (drainClean (runDecomp false s).unused).1,
         (drainClean (runDecomp false s).unused).2)
      else ((runDecomp false s).out, false) := by
  cases s with
  | nil => exact absurd rfl h
  | cons b rest => exact drainClean_cons b rest

theorem drainClean_eq_drainD (s : List Nat) (h : s ≠ []) :
    drainClean s = drainD ⟨false, false, []⟩ s := by
  rw [drainClean_ne_nil s h]
  simp [drainD]

theorem drainD_fin (e : Bool) (u s : List Nat) :
    drainD ⟨e, true, u⟩ s = drainClean (u ++ s) := by
  simp [drainD]

theorem drainClean_encode (B r : List Nat) :
    drainClean (escEncode B ++ 255 :: 0 :: r) = (B ++ (drainClean r).1, (drainClean r).2) := by
  have hne : escEncode B ++ 255 :: 0 :: r ≠ [] := by simp
  rw [drainClean_ne_nil _ hne, runDecomp_encode]
  simp

theorem drainD_step (esc : Bool) (a b : List Nat) :
    drainD ⟨esc, false, []⟩ (a ++ b) =
      ((runDecomp esc a).out ++
        (drainD ⟨(runDecomp esc a).esc, (runDecomp esc a).fin, (runDecomp esc a).unused⟩ b).1,
       (drainD ⟨(runDecomp esc a).esc, (runDecomp esc a).fin, (runDecomp esc a).unused⟩ b).2) := by
  cases hfin : (runDecomp esc a).fin with
  | true =>
    have happ := runDecomp_append a esc b
    rw [hfin] at happ
    simp only [if_true] at happ
    simp [drainD, happ, hfin]
  | false =>
    have hu := runDecomp_notfin_unused a esc hfin
    have happ := runDecomp_append a esc b
    rw [hfin] at happ
    simp only [Bool.false_eq_true, if_false] at happ
    simp only [drainD, happ, hfin]
    cases hfin2 : (runDecomp (runDecomp esc a).esc b).fin <;>
      simp [hfin2, List.append_assoc]

namespace BZ2File


/-- `FillPostRes` transports along a state with identical bookkeeping
fields and no larger measure. -/
theorem FillPostRes_mono (res : Res Bool) (g f : BZ2File) (T : List Nat × Bool)
    (h : FillPostRes res g T)
    (hpos : g.pos = f.pos) (hmode : g.mode = f.mode) (hsize : g.size = f.size)
    (hcont : g.fpContent = f.fpContent) (hm : measureF g ≤ measureF f) :
    FillPostRes res f T := by
  obtain ⟨l, c⟩ := T
  cases l with
  | cons x xs =>
    obtain ⟨f', d', h1, h2, h3, h4, h5, h6, h7, h8, h9, h10⟩ := h
    exact ⟨f', d', h1, h2, h3, h4, h5, hpos ▸ h6, hmode ▸ h7, hsize ▸ h8, hcont ▸ h9, by omega⟩
  | nil =>
    cases c with
    | true =>
      obtain ⟨f', d', h1, h2, h3, h4, h5, h6, h7, h8, h9⟩ := h
      exact ⟨f', d', h1, h2, hpos ▸ h3, hpos ▸ h4, h5, hcont ▸ h6, h7, h8, h9⟩
    | false =>
      obtain ⟨f', h1, h2, h3, h4⟩ := h
      exact ⟨f', h1, hmode ▸ h2, hsize ▸ h3, hpos ▸ h4⟩


theorem decompress_notfin (d : BZ2Decompressor) (h : d.finished = false) (data : List Nat) :
    d.decompress data = .ok ((runDecomp d.esc data).out,
      ⟨(runDecomp d.esc data).esc, (runDecomp d.esc data).fin, (runDecomp d.esc data).unused⟩) := by
  simp [BZ2Decompressor.decompress, h]

theorem decompress_block_notfin (f : BZ2File) (d : BZ2Decompressor) (h : d.finished = false)
    (data : List Nat) :
    _decompress_block f d data =
      { f with
        decompressor := some ⟨(runDecomp d.esc data).esc, (runDecomp d.esc data).fin,
          (runDecomp d.esc data).unused⟩,
        buffer := (runDecomp d.esc data).out } := by
  simp [_decompress_block, decompress_notfin d h data]

theorem decompress_block_fin (f : BZ2File) (d : BZ2Decompressor) (h : d.finished = true)
    (data : List Nat) :
    _decompress_block f d data =
      { f with
        decompressor := some ⟨(runDecomp false data).esc, (runDecomp false data).fin,
          (runDecomp false data).unused⟩,
        buffer := (runDecomp false data).out } := by
  simp [_decompress_block, BZ2Decompressor.decompress, h, BZ2Decompressor.new]

theorem fill_after_chunk (fuel : Nat)
    (ih : ∀ g e, g.decompressor = some e → dInv e → g.buffer = [] → measureF g < fuel →
      FillPostRes (_fill_bufferF fuel g) g (drainD e (g.fpContent.drop g.fpPos)))
    (f g : BZ2File) (d₂ : BZ2Decompressor) (out : List Nat) (T : List Nat × Bool)
    (hNext : g.decompressor = some d₂) (hInv : dInv d₂) (hbuf : g.buffer = out)
    (hT : T = (out ++ (drainD d₂ (g.fpContent.drop g.fpPos)).1,
               (drainD d₂ (g.fpContent.drop g.fpPos)).2))
    (hpos : g.pos = f.pos) (hmode : g.mode = f.mode) (hsize : g.size = f.size)
    (hcont : g.fpContent = f.fpContent)
    (hm1 : measureF g + out.length ≤ measureF f)
    (hm2 : out = [] → measureF g < measureF f)
    (hfuel : measureF f ≤ fuel) :
    FillPostRes (_fill_bufferF fuel g) f T := by
  cases out with
  | nil =>
    have hmlt : measureF g < fuel := lt_of_lt_of_le (hm2 rfl) hfuel
    have hres := ih g d₂ hNext hInv hbuf hmlt
    have hTX : T = drainD d₂ (g.fpContent.drop g.fpPos) := by rw [hT]; simp
    rw [hTX]
    exact FillPostRes_mono _ g f _ hres hpos hmode hsize hcont (Nat.le_of_lt (hm2 rfl))
  | cons y ys =>
    have hres : _fill_bufferF fuel g = .ok true g := by
      cases fuel with
      | zero => simp only [List.length_cons] at hm1; omega
      | succ k => simp [_fill_bufferF, hbuf]
    rw [hT]
    refine ⟨g, d₂, hres, by simp [hbuf], hNext, hInv, ?_, hpos, hmode, hsize, hcont, ?_⟩
    · simp [drain, hNext, hbuf]
    · rw [hbuf]; exact hm1


theorem drop_take_length {α : Type} (l : List α) (n : Nat) :
    l.drop (l.take n).length = l.drop n := by
  rw [List.length_take]
  rcases Nat.le_total n l.length with h | h
  · rw [Nat.min_eq_left h]
  · rw [Nat.min_eq_right h, List.drop_eq_nil_of_le h, List.drop_eq_nil_of_le (Nat.le_refl _)]

theorem fill_spec : ∀ (fuel : Nat) (f : BZ2File) (d : BZ2Decompressor),
    f.decompressor = some d → dInv d → f.buffer = [] → measureF f < fuel →
    FillPostRes (_fill_bufferF fuel f) f (drainD d (f.fpContent.drop f.fpPos)) := by
  intro fuel
  induction fuel with
  | zero => intro f d _ _ _ h; omega
  | succ k ih =>
    intro f d hd hinv hbuf hfuel
    obtain ⟨de, dfin, du⟩ := d
    by_cases hdu : du = []
    · subst hdu
      by_cases hrest : f.fpContent.drop f.fpPos = []
      · cases dfin with
        | true =>
          have hsc : drainD ⟨de, true, []⟩ (f.fpContent.drop f.fpPos) = ([], true) := by
            simp [hrest, drainD, drainClean, drainCleanF]
          rw [hsc]
          simp only [_fill_bufferF, hbuf, List.isEmpty_nil, if_true, hd, fpRead, hrest,
            List.take_nil, BZ2Decompressor.decompress, FillPostRes]
          refine ⟨_, ⟨de, true, []⟩, rfl, rfl, rfl, rfl, rfl, rfl, rfl, ?_, ?_⟩
          · intro h; cases h
          · simp [drain, drainD, hrest, hbuf, drainClean, drainCleanF]
        | false =>
          have hsc : drainD ⟨de, false, []⟩ (f.fpContent.drop f.fpPos) = ([], false) := by
            simp [hrest, drainD, runDecomp]
          rw [hsc]
          simp only [_fill_bufferF, hbuf, List.isEmpty_nil, if_true, hd, fpRead, hrest,
            List.take_nil, BZ2Decompressor.decompress, FillPostRes, Bool.false_eq_true,
            if_false]
          exact ⟨_, rfl, rfl, rfl, rfl⟩
      · have ha : (f.fpContent.drop f.fpPos).take _BUFFER_SIZE ≠ [] := by
          simp [List.take_eq_nil_iff, hrest, _BUFFER_SIZE]
        have haE : ((f.fpContent.drop f.fpPos).take _BUFFER_SIZE).isEmpty = false := by
          simp [List.isEmpty_iff, ha]
        have hstep : _fill_bufferF (k + 1) f =
            _fill_bufferF k (_decompress_block
              { f with fpPos := f.fpPos + ((f.fpContent.drop f.fpPos).take _BUFFER_SIZE).length }
              ⟨de, dfin, []⟩ ((f.fpContent.drop f.fpPos).take _BUFFER_SIZE)) := by
          simp only [_fill_bufferF, hbuf, List.isEmpty_nil, if_true, hd, fpRead, haE,
            Bool.false_eq_true, if_false]
        have hdr : List.drop (f.fpPos + ((f.fpContent.drop f.fpPos).take _BUFFER_SIZE).length)
            f.fpContent = (f.fpContent.drop f.fpPos).drop _BUFFER_SIZE := by
          rw [← List.drop_drop, drop_take_length]
        have hlen1 : ((f.fpContent.drop f.fpPos).take _BUFFER_SIZE).length ≤
            (f.fpContent.drop f.fpPos).length := by
          rw [List.length_take]; exact Nat.min_le_right _ _
        have hrl : (f.fpContent.drop f.fpPos).length = f.fpContent.length - f.fpPos :=
          List.length_drop _ _
        have hr1 : 1 ≤ (f.fpContent.drop f.fpPos).length := List.length_pos.mpr hrest
        cases dfin with
        | false =>
          rw [hstep, decompress_block_notfin _ _ rfl]
          have h3 := runDecomp_unused_lt _ de ha
          have h4 := runDecomp_len_le ((f.fpContent.drop f.fpPos).take _BUFFER_SIZE) de
          refine fill_after_chunk k ih f _ _ _ _ rfl ?_ rfl ?_ rfl rfl rfl rfl ?_ ?_ ?_
          · intro h; exact runDecomp_notfin_unused _ _ h
          · rw [hdr]
            conv_lhs => rw [← List.take_append_drop _BUFFER_SIZE (f.fpContent.drop f.fpPos)]
            exact drainD_step de _ _
          · simp only [measureF, unusedLen, hd]
            omega
          · intro _
            simp only [measureF, unusedLen, hd]
            omega
          · omega
        | true =>
          rw [hstep, decompress_block_fin _ _ rfl]
          have h3 := runDecomp_unused_lt ((f.fpContent.drop f.fpPos).take _BUFFER_SIZE) false ha
          have h4 := runDecomp_len_le ((f.fpContent.drop f.fpPos).take _BUFFER_SIZE) false
          refine fill_after_chunk k ih f _ _ _ _ rfl ?_ rfl ?_ rfl rfl rfl rfl ?_ ?_ ?_
          · intro h; exact runDecomp_notfin_unused _ _ h
          · rw [hdr, drainD_fin de [] _, List.nil_append, drainClean_eq_drainD _ hrest]
            conv_lhs => rw [← List.take_append_drop _BUFFER_SIZE (f.fpContent.drop f.fpPos)]
            exact drainD_step false _ _
          · simp only [measureF, unusedLen, hd]
            omega
          · intro _
            simp only [measureF, unusedLen, hd]
            omega
          · omega
    · have hfin : dfin = true := by
        cases dfin
        · exact absurd (hinv rfl) hdu
        · rfl
      subst hfin
      have hduE : du.isEmpty = false := by simp [List.isEmpty_iff, hdu]
      have hstep : _fill_bufferF (k + 1) f =
          _fill_bufferF k (_decompress_block { f with decompressor := some BZ2Decompressor.new }
            BZ2Decompressor.new du) := by
        simp only [_fill_bufferF, hbuf, List.isEmpty_nil, if_true, hd, hduE,
          Bool.false_eq_true, if_false]
      have hnewfin : BZ2Decompressor.new.finished = false := rfl
      rw [hstep, decompress_block_notfin _ _ hnewfin]
      have h3 := runDecomp_unused_lt du BZ2Decompressor.new.esc hdu
      have h4 := runDecomp_len_le du BZ2Decompressor.new.esc
      refine fill_after_chunk k ih f _ _ _ _ rfl ?_ rfl ?_ rfl rfl rfl rfl ?_ ?_ ?_
      · intro h; exact runDecomp_notfin_unused _ _ h
      · rw [drainD_fin de du _, drainClean_eq_drainD _ (by simp [hdu])]
        exact drainD_step BZ2Decompressor.new.esc du _
      · simp only [measureF, unusedLen, hd]
        omega
      · intro _
        simp only [measureF, unusedLen, hd]
        omega
      · omega


theorem fill_buffer_spec (f : BZ2File) (d : BZ2Decompressor)
    (hd : f.decompressor = some d) (hinv : dInv d) (hbuf : f.buffer = []) :
    FillPostRes (_fill_buffer f) f (drainD d (f.fpContent.drop f.fpPos)) :=
  fill_spec (measureF f + 1) f d hd hinv hbuf (by omega)

theorem fill_buffer_nonempty (f : BZ2File) (h : ¬ f.buffer = []) :
    _fill_buffer f = .ok true f := by
  have hE : f.buffer.isEmpty = false := by simp [List.isEmpty_iff, h]
  simp [_fill_buffer, _fill_bufferF, hE]

theorem read_all_spec : ∀ (fuel : Nat) (f : BZ2File) (d : BZ2Decompressor) (rd : Bool)
    (acc : List Nat), f.decompressor = some d → dInv d →
    measureF f + f.buffer.length < fuel →
    (((drain f).2 = true →
      ∃ f' d', _read_allF fuel rd acc f = .ok (if rd then acc ++ (drain f).1 else []) f' ∧
        f'.pos = f.pos + (drain f).1.length ∧ f'.mode = _MODE_READ_EOF ∧
        f'.size = ((f.pos + (drain f).1.length : Nat) : Int) ∧ f'.buffer = [] ∧
        f'.fpContent = f.fpContent ∧ f'.decompressor = some d' ∧ dInv d' ∧
        drain f' = ([], true)) ∧
    ((drain f).2 = false →
      ∃ f', _read_allF fuel rd acc f =
          .err (Err.eofError "Compressed file ended before the end-of-stream marker was reached") f' ∧
        f'.mode = f.mode ∧ f'.size = f.size)) := by
  intro fuel
  induction fuel with
  | zero => intro f d rd acc _ _ h; omega
  | succ k ih =>
    intro f d rd acc hd hinv hfuel
    by_cases hbuf : f.buffer = []
    · have hspec := fill_buffer_spec f d hd hinv hbuf
      have hdf : drain f = ((drainD d (f.fpContent.drop f.fpPos)).1,
          (drainD d (f.fpContent.drop f.fpPos)).2) := by
        simp [drain, hd, hbuf]
      rcases hT : drainD d (f.fpContent.drop f.fpPos) with ⟨l, c⟩
      rw [hT] at hspec hdf
      cases l with
      | nil =>
        cases c with
        | true =>
          obtain ⟨f', d', h1, h2, h3, h4, h5, h6, h7, h8, h9⟩ := hspec
          constructor
          · intro _
            refine ⟨f', d', ?_, ?_, h2, ?_, h5, h6, h7, h8, h9⟩
            · simp only [_read_allF, h1, hdf]
              simp
            · simp [hdf, h4]
            · simp [hdf, h3]
          · intro hc
            rw [hdf] at hc
            simp at hc
        | false =>
          obtain ⟨f', h1, h2, h3, h4⟩ := hspec
          constructor
          · intro hc
            rw [hdf] at hc
            simp at hc
          · intro _
            exact ⟨f', by simp only [_read_allF, h1], h2, h3⟩
      | cons x xs =>
        obtain ⟨f', d', h1, h2, h3, h4, h5, h6, h7, h8, h9, h10⟩ := hspec
        have hdf2 : drain f = (x :: xs, c) := by rw [hdf]
        have hx : f'.buffer ++ (drainD d' (f'.fpContent.drop f'.fpPos)).1 = x :: xs := by
          have h5' := h5
          simp only [drain, h3] at h5'
          exact (Prod.ext_iff.mp h5').1
        have hc2 : (drainD d' (f'.fpContent.drop f'.fpPos)).2 = c := by
          have h5' := h5
          simp only [drain, h3] at h5'
          exact (Prod.ext_iff.mp h5').2
        have hster : _read_allF (k + 1) rd acc f =
            _read_allF k rd (acc ++ f'.buffer)
              { f' with pos := f'.pos + f'.buffer.length, buffer := [] } := by
          simp only [_read_allF, h1]
        have hlen1 : 1 ≤ f'.buffer.length := by
          rcases List.exists_cons_of_ne_nil h2 with ⟨y, ys, hyy⟩
          simp [hyy]
        have hnext := ih { f' with pos := f'.pos + f'.buffer.length, buffer := [] } d' rd
          (acc ++ f'.buffer) h3 h4 (by
            simp only [measureF, unusedLen, h3, List.length_nil]
            simp only [measureF, unusedLen, h3, hd] at h10
            simp only [measureF, unusedLen, hd, hbuf, List.length_nil] at hfuel
            omega)
        have hdn1 : (drain { f' with pos := f'.pos + f'.buffer.length, buffer := [] }).1 =
            (drainD d' (f'.fpContent.drop f'.fpPos)).1 := by
          simp [drain, h3]
        have hdn2 : (drain { f' with pos := f'.pos + f'.buffer.length, buffer := [] }).2 =
            (drainD d' (f'.fpContent.drop f'.fpPos)).2 := by
          simp [drain, h3]
        have hlx : f'.buffer.length + (drainD d' (f'.fpContent.drop f'.fpPos)).1.length =
            (x :: xs).length := by
          have hh := congrArg List.length hx
          rw [List.length_append] at hh
          exact hh
        obtain ⟨hclean, htrunc⟩ := hnext
        constructor
        · intro hc
          have hcc : c = true := by rw [hdf2] at hc; exact hc
          have hclean2 := hclean (by rw [hdn2, hc2, hcc])
          obtain ⟨f'', d'', g1, g2, g3, g4, g5, g6, g7, g8, g9⟩ := hclean2
          rw [hdn1] at g1 g2 g4
          have g2' : f''.pos = f'.pos + f'.buffer.length +
              (drainD d' (f'.fpContent.drop f'.fpPos)).1.length := g2
          have g4' : f''.size = ((f'.pos + f'.buffer.length +
              (drainD d' (f'.fpContent.drop f'.fpPos)).1.length : Nat) : Int) := g4
          have g6' : f''.fpContent = f'.fpContent := g6
          refine ⟨f'', d'', ?_, ?_, g3, ?_, g5, ?_, g7, g8, g9⟩
          · rw [hster, g1]
            have heq : (if rd = true then acc ++ f'.buffer ++
                (drainD d' (f'.fpContent.drop f'.fpPos)).1 else []) =
                (if rd = true then acc ++ (drain f).1 else []) := by
              rw [hdf2]
              cases rd
              · simp
              · show acc ++ f'.buffer ++ _ = acc ++ (x :: xs)
                rw [List.append_assoc, hx]
            rw [heq]
          · show f''.pos = f.pos + (drain f).1.length
            rw [hdf2, g2', h6]
            show f.pos + f'.buffer.length + _ = f.pos + (x :: xs).length
            omega
          · show f''.size = ((f.pos + (drain f).1.length : Nat) : Int)
            rw [hdf2, g4', h6]
            show _ = ((f.pos + (x :: xs).length : Nat) : Int)
            congr 1
            omega
          · rw [g6', h9]
        · intro hc
          have hcc : c = false := by rw [hdf2] at hc; exact hc
          have htrunc2 := htrunc (by rw [hdn2, hc2, hcc])
          obtain ⟨f'', g1, g2, g3⟩ := htrunc2
          have g2' : f''.mode = f'.mode := g2
          have g3' : f''.size = f'.size := g3
          exact ⟨f'', by rw [hster, g1], by rw [g2', h7], by rw [g3', h8]⟩

    · have h1 : _fill_buffer f = .ok true f := fill_buffer_nonempty f hbuf
      have hster : _read_allF (k + 1) rd acc f =
          _read_allF k rd (acc ++ f.buffer)
            { f with pos := f.pos + f.buffer.length, buffer := [] } := by
        simp only [_read_allF, h1]
      have hlen1 : 1 ≤ f.buffer.length := by
        rcases List.exists_cons_of_ne_nil hbuf with ⟨y, ys, hyy⟩
        simp [hyy]
      have hnext := ih { f with pos := f.pos + f.buffer.length, buffer := [] } d rd
        (acc ++ f.buffer) hd hinv (by
          simp only [measureF, unusedLen, hd, List.length_nil]
          simp only [measureF, unusedLen, hd] at hfuel
          omega)
      have hdn1 : (drain { f with pos := f.pos + f.buffer.length, buffer := [] }).1 =
          (drainD d (f.fpContent.drop f.fpPos)).1 := by
        simp [drain, hd]
      have hdn2 : (drain { f with pos := f.pos + f.buffer.length, buffer := [] }).2 =
          (drainD d (f.fpContent.drop f.fpPos)).2 := by
        simp [drain, hd]
      have hdfa : (drain f).1 = f.buffer ++ (drainD d (f.fpContent.drop f.fpPos)).1 := by
        simp [drain, hd]
      have hdfb : (drain f).2 = (drainD d (f.fpContent.drop f.fpPos)).2 := by
        simp [drain, hd]
      obtain ⟨hclean, htrunc⟩ := hnext
      constructor
      · intro hc
        have hclean2 := hclean (by rw [hdn2, ← hdfb]; exact hc)
        obtain ⟨f'', d'', g1, g2, g3, g4, g5, g6, g7, g8, g9⟩ := hclean2
        rw [hdn1] at g1 g2 g4
        have g2' : f''.pos = f.pos + f.buffer.length +
            (drainD d (f.fpContent.drop f.fpPos)).1.length := g2
        have g4' : f''.size = ((f.pos + f.buffer.length +
            (drainD d (f.fpContent.drop f.fpPos)).1.length : Nat) : Int) := g4
        have g6' : f''.fpContent = f.fpContent := g6
        refine ⟨f'', d'', ?_, ?_, g3, ?_, g5, g6', g7, g8, g9⟩
        · rw [hster, g1]
          have heq : (if rd = true then acc ++ f.buffer ++
              (drainD d (f.fpContent.drop f.fpPos)).1 else []) =
              (if rd = true then acc ++ (drain f).1 else []) := by
            rw [hdfa]
            cases rd
            · simp
            · simp only [if_true]
              rw [List.append_assoc]
          rw [heq]
        · rw [hdfa, List.length_append, g2']
          omega
        · rw [hdfa, List.length_append, g4']
          congr 1
          omega
      · intro hc
        have htrunc2 := htrunc (by rw [hdn2, ← hdfb]; exact hc)
        obtain ⟨f'', g1, g2, g3⟩ := htrunc2
        have g2' : f''.mode = f.mode := g2
        have g3' : f''.size = f.size := g3
        exact ⟨f'', by rw [hster, g1], g2', g3'⟩



theorem read_block_after_fill (k : Nat) (n : Int) (rd : Bool) (acc : List Nat)
    (f f' : BZ2File) (d' : BZ2Decompressor)
    (ih : ∀ (g : BZ2File) (e : BZ2Decompressor) (m : Int) (rd : Bool) (acc : List Nat),
      g.decompressor = some e → dInv e → measureF g + g.buffer.length < k →
      ReadBlockPost k m rd acc g)
    (hfill : _fill_buffer f = .ok true f')
    (hbne : f'.buffer ≠ [])
    (hd' : f'.decompressor = some d') (hinv' : dInv d')
    (hpos : f'.pos = f.pos) (hmode : f'.mode = f.mode) (hsize : f'.size = f.size)
    (hcont : f'.fpContent = f.fpContent)
    (hmeas : measureF f' + f'.buffer.length ≤ measureF f + f.buffer.length)
    (hfuel : measureF f + f.buffer.length < k + 1)
    (hn : 0 < n)
    (hdr : drain f = drain f') :
    ReadBlockPost (k + 1) n rd acc f := by
  have hstep : _read_blockF (k + 1) n rd acc f =
      if n < (f'.buffer.length : Int) then
        _read_blockF k (n - (f'.buffer.take n.toNat).length) rd (acc ++ f'.buffer.take n.toNat)
          { f' with buffer := f'.buffer.drop n.toNat, pos := f'.pos + (f'.buffer.take n.toNat).length }
      else
        _read_blockF k (n - f'.buffer.length) rd (acc ++ f'.buffer)
          { f' with buffer := [], pos := f'.pos + f'.buffer.length } := by
    simp only [_read_blockF, if_neg (not_le.mpr hn), hfill]
  have hblen : 1 ≤ f'.buffer.length := by
    rcases List.exists_cons_of_ne_nil hbne with ⟨y, ys, hyy⟩
    simp [hyy]
  have hdfa : (drain f').1 = f'.buffer ++ (drainD d' (f'.fpContent.drop f'.fpPos)).1 := by
    simp [drain, hd']
  have hdfb : (drain f').2 = (drainD d' (f'.fpContent.drop f'.fpPos)).2 := by
    simp [drain, hd']
  have hnn : (0 : Int) ≤ n := le_of_lt hn
  by_cases hlt : n < (f'.buffer.length : Int)
  · -- the request is met inside the pending buffer; the loop then stops
    have htlt : n.toNat < f'.buffer.length := by omega
    have hdl : (f'.buffer.take n.toNat).length = n.toNat := by
      rw [List.length_take]; omega
    have hz : n - ((f'.buffer.take n.toNat).length : Int) = 0 := by
      rw [hdl]; omega
    have hk1 : 1 ≤ k := by omega
    obtain ⟨k', rfl⟩ : ∃ k', k = k' + 1 := ⟨k - 1, by omega⟩
    have hdone : _read_blockF (k' + 1) (n - ((f'.buffer.take n.toNat).length : Int)) rd
        (acc ++ f'.buffer.take n.toNat)
        { f' with buffer := f'.buffer.drop n.toNat, pos := f'.pos + (f'.buffer.take n.toNat).length } =
        .ok (if rd then acc ++ f'.buffer.take n.toNat else [])
        { f' with buffer := f'.buffer.drop n.toNat, pos := f'.pos + (f'.buffer.take n.toNat).length } := by
      rw [hz]
      simp [_read_blockF]
    have hsub0 : n.toNat - f'.buffer.length = 0 := by omega
    constructor
    · intro _
      refine ⟨{ f' with
        buffer := f'.buffer.drop n.toNat,
        pos := f'.pos + (f'.buffer.take n.toNat).length }, d', ?_, ?_, hmode, hsize, hcont,
        hd', hinv', ?_⟩
      · rw [hstep, if_pos hlt, hdone]
        have : (drain f).1.take n.toNat = f'.buffer.take n.toNat := by
          rw [hdr, hdfa, List.take_append_eq_append_take, hsub0, List.take_zero,
            List.append_nil]
        rw [this]
      · show f'.pos + (f'.buffer.take n.toNat).length = f.pos + n.toNat
        rw [hpos, hdl]
      · show drain _ = ((drain f).1.drop n.toNat, (drain f).2)
        have h1 : (drain { f' with
            buffer := f'.buffer.drop n.toNat,
            pos := f'.pos + (f'.buffer.take n.toNat).length }).1 =
            f'.buffer.drop n.toNat ++ (drainD d' (f'.fpContent.drop f'.fpPos)).1 := by
          simp [drain, hd']
        have h2 : (drain { f' with
            buffer := f'.buffer.drop n.toNat,
            pos := f'.pos + (f'.buffer.take n.toNat).length }).2 =
            (drainD d' (f'.fpContent.drop f'.fpPos)).2 := by
          simp [drain, hd']
        have h3 : (drain f).1.drop n.toNat =
            f'.buffer.drop n.toNat ++ (drainD d' (f'.fpContent.drop f'.fpPos)).1 := by
          rw [hdr, hdfa, List.drop_append_eq_append_drop, hsub0, List.drop_zero]
        rw [Prod.ext_iff]
        exact ⟨by rw [h1, h3], by rw [h2, hdr, hdfb]⟩
    · intro hlen _
      exfalso
      rw [hdr, hdfa] at hlen
      rw [List.length_append] at hlen
      omega
  · -- the whole pending buffer is consumed and the loop continues
    have hble : (f'.buffer.length : Int) ≤ n := not_lt.mp hlt
    have hbn : f'.buffer.length ≤ n.toNat := by omega
    have hrec := ih { f' with buffer := [], pos := f'.pos + f'.buffer.length } d'
      (n - f'.buffer.length) rd (acc ++ f'.buffer) hd' hinv' (by
        simp only [measureF, unusedLen, hd', List.length_nil]
        simp only [measureF, unusedLen, hd'] at hmeas
        simp only [measureF, unusedLen] at hfuel
        omega)
    have hdn1 : (drain { f' with buffer := [], pos := f'.pos + f'.buffer.length }).1 =
        (drainD d' (f'.fpContent.drop f'.fpPos)).1 := by
      simp [drain, hd']
    have hdn2 : (drain { f' with buffer := [], pos := f'.pos + f'.buffer.length }).2 =
        (drainD d' (f'.fpContent.drop f'.fpPos)).2 := by
      simp [drain, hd']
    have htn : (n - (f'.buffer.length : Int)).toNat = n.toNat - f'.buffer.length :=
      Int.toNat_sub' n f'.buffer.length
    obtain ⟨ha, hb⟩ := hrec
    constructor
    · intro hle
      rw [hdr, hdfa, List.length_append] at hle
      have hya := ha (by
        rw [hdn1, htn]
        exact Nat.sub_le_of_le_add (Nat.add_comm _ _ ▸ hle))
      obtain ⟨f'', d'', g1, g2, g3, g4, g5, g6, g7, g8⟩ := hya
      rw [hdn1, hdn2] at g8
      rw [hdn1] at g1
      rw [htn] at g1 g2 g8
      have g2' : f''.pos = f'.pos + f'.buffer.length + (n.toNat - f'.buffer.length) := g2
      have g3' : f''.mode = f'.mode := g3
      have g4' : f''.size = f'.size := g4
      have g5' : f''.fpContent = f'.fpContent := g5
      refine ⟨f'', d'', ?_, ?_, by rw [g3', hmode], by rw [g4', hsize], by rw [g5', hcont],
        g6, g7, ?_⟩
      · rw [hstep, if_neg hlt, g1]
        have heq : (if rd = true then acc ++ f'.buffer ++
            ((drainD d' (f'.fpContent.drop f'.fpPos)).1.take (n.toNat - f'.buffer.length))
            else []) = (if rd = true then acc ++ (drain f).1.take n.toNat else []) := by
          cases rd
          · simp
          · simp only [if_true]
            rw [hdr, hdfa, List.take_append_eq_append_take,
              List.take_of_length_le hbn, List.append_assoc]
        rw [heq]
      · rw [g2', hpos, Nat.add_assoc, Nat.add_sub_cancel' hbn]
      · rw [g8]
        have h3 : (drain f).1.drop n.toNat =
            (drainD d' (f'.fpContent.drop f'.fpPos)).1.drop (n.toNat - f'.buffer.length) := by
          rw [hdr, hdfa, List.drop_append_eq_append_drop,
            List.drop_eq_nil_of_le hbn, List.nil_append]
        rw [h3, hdr, hdfb]
    · intro hlen hc
      rw [hdr, hdfa, List.length_append] at hlen
      rw [hdr, hdfb] at hc
      have hyb := hb (by
        rw [hdn1, htn]
        exact Nat.lt_sub_of_add_lt (by rw [Nat.add_comm]; exact hlen))
        (by rw [hdn2]; exact hc)
      obtain ⟨f'', d'', g1, g2, g3, g4, g5, g6, g7, g8, g9⟩ := hyb
      rw [hdn1] at g1 g2 g4
      have g2' : f''.pos = f'.pos + f'.buffer.length +
          (drainD d' (f'.fpContent.drop f'.fpPos)).1.length := g2
      have g4' : f''.size = ((f'.pos + f'.buffer.length +
          (drainD d' (f'.fpContent.drop f'.fpPos)).1.length : Nat) : Int) := g4
      have g6' : f''.fpContent = f'.fpContent := g6
      refine ⟨f'', d'', ?_, ?_, g3, ?_, g5, by rw [g6', hcont], g7, g8, g9⟩
      · rw [hstep, if_neg hlt, g1]
        have heq : (if rd = true then acc ++ f'.buffer ++
            (drainD d' (f'.fpContent.drop f'.fpPos)).1 else []) =
            (if rd = true then acc ++ (drain f).1 else []) := by
          cases rd
          · simp
          · simp only [if_true]
            rw [hdr, hdfa, List.append_assoc]
        rw [heq]
      · rw [hdr, hdfa, List.length_append, g2', hpos, Nat.add_assoc]
      · rw [hdr, hdfa, List.length_append, g4', hpos]
        congr 1
        rw [Nat.add_assoc]



theorem read_block_spec : ∀ (fuel : Nat) (f : BZ2File) (d : BZ2Decompressor) (n : Int)
    (rd : Bool) (acc : List Nat), f.decompressor = some d → dInv d →
    measureF f + f.buffer.length < fuel → ReadBlockPost fuel n rd acc f := by
  intro fuel
  induction fuel with
  | zero => intro f d n rd acc _ _ h; omega
  | succ k ih =>
    intro f d n rd acc hd hinv hfuel
    by_cases hn : n ≤ 0
    · have htz : n.toNat = 0 := Int.toNat_eq_zero.mpr hn
      have hres : _read_blockF (k + 1) n rd acc f = .ok (if rd then acc else []) f := by
        simp [_read_blockF, hn]
      constructor
      · intro _
        refine ⟨f, d, ?_, ?_, rfl, rfl, rfl, hd, hinv, ?_⟩
        · rw [hres, htz]
          cases rd <;> simp
        · rw [htz]
          simp
        · rw [htz]
          simp
      · intro hlen _
        exfalso
        rw [htz] at hlen
        omega
    · by_cases hbuf : f.buffer = []
      · have hspec := fill_buffer_spec f d hd hinv hbuf
        rcases hT : drainD d (f.fpContent.drop f.fpPos) with ⟨l, c⟩
        rw [hT] at hspec
        have hdf2 : drain f = (l, c) := by simp [drain, hd, hbuf, hT]
        cases l with
        | nil =>
          cases c with
          | true =>
            obtain ⟨f', d', h1, h2, h3, h4, h5, h6, h7, h8, h9⟩ := hspec
            constructor
            · intro hle
              exfalso
              rw [hdf2] at hle
              simp only [List.length_nil, Nat.le_zero] at hle
              exact hn (Int.toNat_eq_zero.mp hle)
            · intro _ _
              refine ⟨f', d', ?_, ?_, h2, ?_, h5, h6, h7, h8, h9⟩
              · simp only [_read_blockF, if_neg hn, h1, hdf2]
                cases rd <;> simp
              · rw [hdf2]
                simp [h4]
              · rw [hdf2]
                simp [h3]
          | false =>
            constructor
            · intro hle
              exfalso
              rw [hdf2] at hle
              simp only [List.length_nil, Nat.le_zero] at hle
              exact hn (Int.toNat_eq_zero.mp hle)
            · intro _ hc
              exfalso
              rw [hdf2] at hc
              simp at hc
        | cons x xs =>
          obtain ⟨f', d', h1, h2, h3, h4, h5, h6, h7, h8, h9, h10⟩ := hspec
          refine read_block_after_fill k n rd acc f f' d' ih h1 h2 h3 h4 h6 h7 h8 h9 ?_
            hfuel (not_le.mp hn) ?_
          · rw [hbuf]
            simpa using h10
          · rw [hdf2, h5]
      · exact read_block_after_fill k n rd acc f f d ih (fill_buffer_nonempty f hbuf) hbuf
          hd hinv rfl rfl rfl rfl (Nat.le_refl _) hfuel (not_le.mp hn) rfl



theorem reaches_decomp (f : BZ2File) (h : dInvOpt f.decompressor) :
    ∃ d, f.decompressor = some d ∧ dInv d := by
  cases hd : f.decompressor with
  | none => rw [hd] at h; exact absurd h (by simp [dInvOpt])
  | some d => exact ⟨d, rfl, by rw [hd] at h; exact h⟩

theorem read_all_clean (f : BZ2File) (d : BZ2Decompressor) (rd : Bool)
    (hd : f.decompressor = some d) (hinv : dInv d) (hc : (drain f).2 = true) :
    ∃ f' d', _read_all f rd = .ok (if rd then (drain f).1 else []) f' ∧
      f'.pos = f.pos + (drain f).1.length ∧ f'.mode = _MODE_READ_EOF ∧
      f'.size = ((f.pos + (drain f).1.length : Nat) : Int) ∧ f'.buffer = [] ∧
      f'.fpContent = f.fpContent ∧ f'.decompressor = some d' ∧ dInv d' ∧
      drain f' = ([], true) := by
  have h := (read_all_spec (measureF f + f.buffer.length + 1) f d rd [] hd hinv
    (by omega)).1 hc
  obtain ⟨f', d', h1, h⟩ := h
  have h1' : _read_all f rd = Res.ok (if rd = true then [] ++ (drain f).1 else []) f' := h1
  exact ⟨f', d', by rw [h1']; cases rd <;> simp, h⟩

theorem read_all_trunc (f : BZ2File) (d : BZ2Decompressor) (rd : Bool)
    (hd : f.decompressor = some d) (hinv : dInv d) (hc : (drain f).2 = false) :
    ∃ f', _read_all f rd =
        .err (Err.eofError "Compressed file ended before the end-of-stream marker was reached") f' ∧
      f'.mode = f.mode ∧ f'.size = f.size := by
  have h := (read_all_spec (measureF f + f.buffer.length + 1) f d rd [] hd hinv
    (by omega)).2 hc
  obtain ⟨f', h1, h⟩ := h
  exact ⟨f', h1, h⟩

theorem read_block_run (f : BZ2File) (d : BZ2Decompressor) (n : Int) (rd : Bool)
    (hd : f.decompressor = some d) (hinv : dInv d) :
    ReadBlockPost (measureF f + f.buffer.length + 1) n rd [] f :=
  read_block_spec (measureF f + f.buffer.length + 1) f d n rd [] hd hinv (by omega)

theorem init_read_eq (content : List Nat) (level : Int) (owns : Bool)
    (h1 : 1 ≤ level) (h2 : level ≤ 9) :
    BZ2File.init "r" level owns content = .ok
      { fpContent := content, fpPos := 0, fpWritten := [], fpCloseCount := 0,
        closefp := owns, mode := _MODE_READ, pos := 0, size := -1,
        decompressor := some BZ2Decompressor.new, compressor := none, buffer := [] } := by
  simp [init, h1, h2]

theorem init_write_eq (content : List Nat) (level : Int) (owns : Bool)
    (h1 : 1 ≤ level) (h2 : level ≤ 9) :
    BZ2File.init "w" level owns content = .ok
      { fpContent := content, fpPos := 0, fpWritten := [], fpCloseCount := 0,
        closefp := owns, mode := _MODE_WRITE, pos := 0, size := -1,
        decompressor := none, compressor := some ⟨level⟩, buffer := [] } := by
  simp [init, h1, h2]

theorem reaches_init (content P : List Nat) (level : Int) (owns : Bool)
    (h1 : 1 ≤ level) (h2 : level ≤ 9) (hsrc : sourceDrain content = (P, true)) :
    ∃ f0, BZ2File.init "r" level owns content = .ok f0 ∧ Reaches content P 0 f0 ∧
      f0.size = -1 ∧ f0.mode = _MODE_READ ∧ f0.pos = 0 ∧ f0.buffer = [] := by
  refine ⟨_, init_read_eq content level owns h1 h2, ?_, rfl, rfl, rfl, rfl⟩
  refine ⟨rfl, rfl, by simp, by simp [dInvOpt, dInv, BZ2Decompressor.new], ?_, Or.inl rfl,
    Or.inl rfl, by intro h; cases h⟩
  show ([] ++ (drainD BZ2Decompressor.new (content.drop 0)).1,
    (drainD BZ2Decompressor.new (content.drop 0)).2) = (P.drop 0, true)
  rw [List.drop_zero, List.nil_append, List.drop_zero]
  show ((sourceDrain content).1, (sourceDrain content).2) = (P, true)
  rw [hsrc]



theorem check_can_read_ok (f : BZ2File)
    (hmode : f.mode = _MODE_READ ∨ f.mode = _MODE_READ_EOF) :
    _check_can_read f = .ok () := by
  rcases hmode with h | h <;>
    simp [_check_can_read, readableE, closed, h, _MODE_READ, _MODE_READ_EOF, _MODE_CLOSED]

theorem check_can_seek_ok (f : BZ2File)
    (hmode : f.mode = _MODE_READ ∨ f.mode = _MODE_READ_EOF) :
    _check_can_seek f = .ok () := by
  rcases hmode with h | h <;>
    simp [_check_can_seek, readableE, closed, h, _MODE_READ, _MODE_READ_EOF, _MODE_CLOSED]

theorem read_reaches (content P : List Nat) (t : Nat) (f : BZ2File)
    (hR : Reaches content P t f) (n : Int) :
    ∃ f', read f n = .ok (if n < 0 then P.drop t else (P.drop t).take n.toNat) f' ∧
      Reaches content P (if n < 0 then P.length else min (t + n.toNat) P.length) f' ∧
      f'.fpContent = f.fpContent ∧ (n < 0 → f'.size = (P.length : Int)) := by
  obtain ⟨hcont, hpos, hle, hdinv, hdrain, hmode, hsize, hEOF⟩ := hR
  obtain ⟨d, hd, hinv⟩ := reaches_decomp f hdinv
  have hcheck := check_can_read_ok f (by exact hmode)
  rcases hmode with hm | hm
  · by_cases hn0 : n = 0
    · subst hn0
      have hres : read f 0 = .ok [] f := by
        simp [read, hcheck, hm, _MODE_READ, _MODE_READ_EOF]
      refine ⟨f, ?_, ?_, rfl, by intro h; exact absurd h (by omega)⟩
      · rw [hres]
        simp
      · have hmin : (if (0 : Int) < 0 then P.length else min (t + (0 : Int).toNat) P.length)
            = t := by
          simp
          omega
        rw [hmin]
        exact ⟨hcont, hpos, hle, hdinv, hdrain, Or.inl hm, hsize, hEOF⟩
    · by_cases hneg : n < 0
      · obtain ⟨f', d', h1, h2, h3, h4, h5, h6, h7, h8, h9⟩ :=
          read_all_clean f d true hd hinv (by rw [hdrain])
        have hres : read f n = _read_all f true := by
          simp [read, hcheck, hm, _MODE_READ, _MODE_READ_EOF, hn0, hneg]
        have hlen : (drain f).1.length = P.length - t := by
          rw [hdrain]
          exact List.length_drop _ _
        refine ⟨f', ?_, ?_, h6, ?_⟩
        · rw [hres, h1, hdrain]
          simp [hneg]
        · rw [if_pos hneg]
          refine ⟨h6.trans hcont, ?_, Nat.le_refl _, ?_, ?_, Or.inr h3, Or.inr ?_, ?_⟩
          · rw [h2, hpos, hlen]
            omega
          · rw [h7]
            exact h8
          · rw [h9, List.drop_length]
          · rw [h4, hpos, hlen]
            congr 1
            omega
          · intro _
            refine ⟨?_, ?_⟩
            · rw [h2, hpos, hlen]
              omega
            · rw [h4, hpos, hlen]
              congr 1
              omega
        · intro _
          rw [h4, hpos, hlen]
          congr 1
          omega
      · have hnn : ¬ n ≤ 0 := by omega
        have hpost := read_block_run f d n true hd hinv
        have hres : read f n = _read_block f n true := by
          simp [read, hcheck, hm, _MODE_READ, _MODE_READ_EOF, hn0, hneg]
        have hlen : (drain f).1.length = P.length - t := by
          rw [hdrain]
          exact List.length_drop _ _
        by_cases hsmall : n.toNat ≤ P.length - t
        · obtain ⟨f', d', h1, h2, h3, h4, h5, h6, h7, h8⟩ := hpost.1 (by omega)
          have h1' : _read_block f n true =
              Res.ok (if true = true then [] ++ (drain f).1.take n.toNat else []) f' := h1
          have hmin : (if n < 0 then P.length else min (t + n.toNat) P.length)
              = t + n.toNat := by
            rw [if_neg hneg]
            omega
          refine ⟨f', ?_, ?_, h5, by intro h; exact absurd h hneg⟩
          · rw [hres, h1', hdrain]
            simp [hneg]
          · rw [hmin]
            refine ⟨h5.trans hcont, ?_, by omega, ?_, ?_, Or.inl (h3.trans hm), ?_, ?_⟩
            · rw [h2, hpos]
            · rw [h6]
              exact h7
            · rw [h8, hdrain]
              show (List.drop n.toNat (List.drop t P), true) = (P.drop (t + n.toNat), true)
              rw [List.drop_drop, Nat.add_comm]
            · rw [h4]
              exact hsize
            · intro hEOF2
              rw [h3, hm] at hEOF2
              exact absurd hEOF2 (by simp [_MODE_READ, _MODE_READ_EOF])
        · obtain ⟨f', d', h1, h2, h3, h4, h5, h6, h7, h8, h9⟩ := hpost.2 (by omega)
            (by rw [hdrain])
          have h1' : _read_block f n true =
              Res.ok (if true = true then [] ++ (drain f).1 else []) f' := h1
          have hmin : (if n < 0 then P.length else min (t + n.toNat) P.length)
              = P.length := by
            rw [if_neg hneg]
            omega
          refine ⟨f', ?_, ?_, h6, by intro h; exact absurd h hneg⟩
          · rw [hres, h1', hdrain]
            rw [if_neg hneg]
            simp only [if_true, List.nil_append]
            congr 1
            rw [List.take_of_length_le]
            rw [List.length_drop]
            omega
          · rw [hmin]
            refine ⟨h6.trans hcont, ?_, Nat.le_refl _, ?_, ?_, Or.inr h3, Or.inr ?_, ?_⟩
            · rw [h2, hpos, hlen]
              omega
            · rw [h7]
              exact h8
            · rw [h9, List.drop_length]
            · rw [h4, hpos, hlen]
              congr 1
              omega
            · intro _
              refine ⟨?_, ?_⟩
              · rw [h2, hpos, hlen]
                omega
              · rw [h4, hpos, hlen]
                congr 1
                omega
  · obtain ⟨hpos2, hsize2⟩ := hEOF hm
    have ht : t = P.length := by rw [← hpos, hpos2]
    have hres : read f n = .ok [] f := by
      simp [read, hcheck, hm, _MODE_READ, _MODE_READ_EOF]
    refine ⟨f, ?_, ?_, rfl, fun _ => hsize2⟩
    · rw [hres, ht, List.drop_length]
      by_cases hneg : n < 0 <;> simp [hneg]
    · have hmin : (if n < 0 then P.length else min (t + n.toNat) P.length) = t := by
        by_cases hneg : n < 0
        · rw [if_pos hneg, ht]
        · rw [if_neg hneg]
          omega
      rw [hmin]
      exact ⟨hcont, hpos, hle, hdinv, hdrain, Or.inr hm, hsize, hEOF⟩



theorem rewind_reaches (content P : List Nat) (t : Nat) (f : BZ2File)
    (hR : Reaches content P t f) (hsrc : sourceDrain content = (P, true)) :
    Reaches content P 0 (_rewind f) ∧ (_rewind f).size = f.size ∧
    (_rewind f).mode = _MODE_READ := by
  obtain ⟨hcont, hpos, hle, hdinv, hdrain, hmode, hsize, hEOF⟩ := hR
  refine ⟨⟨hcont, rfl, by simp, by simp [_rewind, dInvOpt, dInv, BZ2Decompressor.new], ?_,
    Or.inl rfl, hsize, by intro h; cases h⟩, rfl, rfl⟩
  show ([] ++ (drainD BZ2Decompressor.new (f.fpContent.drop 0)).1,
    (drainD BZ2Decompressor.new (f.fpContent.drop 0)).2) = (P.drop 0, true)
  rw [List.nil_append, List.drop_zero, List.drop_zero, hcont]
  show ((sourceDrain content).1, (sourceDrain content).2) = (P, true)
  rw [hsrc]

theorem seekAbs_rewind (f : BZ2File) (offset : Int) (h : offset < (f.pos : Int)) :
    seekAbs f offset =
      (match _read_block (_rewind f) offset false with
       | .err e f₂ => .err e f₂
       | .ok _ f₂ => .ok ((f₂.pos : Nat) : Int) f₂) := by
  unfold seekAbs
  rw [if_pos h]
  rfl

theorem seekAbs_fwd (f : BZ2File) (offset : Int) (h : ¬ offset < (f.pos : Int))
    (hm : f.mode = _MODE_READ) :
    seekAbs f offset =
      (match _read_block f (offset - (f.pos : Int)) false with
       | .err e f₂ => .err e f₂
       | .ok _ f₂ => .ok ((f₂.pos : Nat) : Int) f₂) := by
  unfold seekAbs
  rw [if_neg h]
  simp [hm, _MODE_READ, _MODE_READ_EOF]

theorem seekAbs_eof (f : BZ2File) (offset : Int) (h : ¬ offset < (f.pos : Int))
    (hm : f.mode = _MODE_READ_EOF) :
    seekAbs f offset = .ok ((f.pos : Nat) : Int) f := by
  unfold seekAbs
  rw [if_neg h]
  simp [hm, _MODE_READ_EOF]

theorem seekAbs_reaches (content P : List Nat) (t : Nat) (f : BZ2File)
    (hR : Reaches content P t f) (hsrc : sourceDrain content = (P, true))
    (T : Nat) (hT : T ≤ P.length) :
    ∃ f', seekAbs f (T : Int) = .ok (T : Int) f' ∧ Reaches content P T f' ∧
      f'.size = f.size := by
  have hRkeep := hR
  obtain ⟨hcont, hpos, hle, hdinv, hdrain, hmode, hsize, hEOF⟩ := hR
  by_cases hlt : (T : Int) < (f.pos : Int)
  · obtain ⟨hRw, hsizew, hmodew⟩ := rewind_reaches content P t f hRkeep hsrc
    obtain ⟨hcontw, hposw, hlew, hdinvw, hdrainw, _, hsizew2, _⟩ := hRw
    obtain ⟨dw, hdw, hinvw⟩ := reaches_decomp _ hdinvw
    have hpost := read_block_run (_rewind f) dw (T : Int) false hdw hinvw
    have e1 : (drain (_rewind f)).1 = P := by rw [hdrainw, List.drop_zero]
    have e2 : (drain (_rewind f)).2 = true := by rw [hdrainw]
    obtain ⟨f', d', h1, h2, h3, h4, h5, h6, h7, h8⟩ := hpost.1 (by
      rw [e1, Int.toNat_natCast]
      exact hT)
    have h1' : _read_block (_rewind f) (T : Int) false =
        Res.ok (if false = true then [] ++ (drain (_rewind f)).1.take (T : Int).toNat else [])
          f' := h1
    have hfp : f'.pos = T := by
      rw [h2, hposw, Int.toNat_natCast, Nat.zero_add]
    refine ⟨f', ?_, ?_, h4.trans hsizew⟩
    · rw [seekAbs_rewind f (T : Int) hlt, h1']
      show Res.ok ((f'.pos : Nat) : Int) f' = Res.ok ((T : Nat) : Int) f'
      rw [hfp]
    · refine ⟨h5.trans hcontw, hfp, hT, ?_, ?_, Or.inl (h3.trans hmodew), ?_, ?_⟩
      · rw [h6]
        exact h7
      · rw [h8, e1, e2, Int.toNat_natCast]
      · rw [h4, hsizew]
        exact hsize
      · intro hEOF2
        rw [h3, hmodew] at hEOF2
        exact absurd hEOF2 (by simp [_MODE_READ, _MODE_READ_EOF])
  · have htT : t ≤ T := by
      rw [hpos] at hlt
      omega
    rcases hmode with hm | hm
    · -- forward discard-read
      obtain ⟨d, hd, hinv⟩ := reaches_decomp f hdinv
      have hpost := read_block_run f d ((T : Int) - (f.pos : Int)) false hd hinv
      have htn : ((T : Int) - (f.pos : Int)).toNat = T - t := by
        rw [hpos]
        rw [show ((t : Nat) : Int) = ((t : Nat) : Int) from rfl]
        rw [Int.toNat_sub' (T : Int) t, Int.toNat_natCast]
      have e1 : (drain f).1 = P.drop t := by rw [hdrain]
      have e2 : (drain f).2 = true := by rw [hdrain]
      obtain ⟨f', d', h1, h2, h3, h4, h5, h6, h7, h8⟩ := hpost.1 (by
        rw [e1, htn, List.length_drop]
        omega)
      have h1' : _read_block f ((T : Int) - (f.pos : Int)) false =
          Res.ok (if false = true then
            [] ++ (drain f).1.take ((T : Int) - (f.pos : Int)).toNat else []) f' := h1
      have hfp : f'.pos = T := by
        rw [h2, htn, hpos]
        omega
      refine ⟨f', ?_, ?_, h4⟩
      · rw [seekAbs_fwd f (T : Int) hlt hm, h1']
        show Res.ok ((f'.pos : Nat) : Int) f' = Res.ok ((T : Nat) : Int) f'
        rw [hfp]
      · refine ⟨h5.trans hcont, hfp, hT, ?_, ?_, Or.inl (h3.trans hm), ?_, ?_⟩
        · rw [h6]
          exact h7
        · rw [h8, e1, e2, htn]
          show (List.drop (T - t) (List.drop t P), true) = (P.drop T, true)
          rw [List.drop_drop]
          congr 2
          omega
        · rw [h4]
          exact hsize
        · intro hEOF2
          rw [h3, hm] at hEOF2
          exact absurd hEOF2 (by simp [_MODE_READ, _MODE_READ_EOF])
    · -- already at confirmed end of stream: no-op
      obtain ⟨hpos2, hsize2⟩ := hEOF hm
      have ht2 : t = P.length := by rw [← hpos, hpos2]
      have hTt : T = t := by omega
      refine ⟨f, ?_, ?_, rfl⟩
      · rw [seekAbs_eof f (T : Int) hlt hm, hpos, hTt]
      · rw [hTt]
        exact ⟨hcont, hpos, hle, hdinv, hdrain, Or.inr hm, hsize, hEOF⟩



theorem seek0_eq (f : BZ2File) (off : Int)
    (hmode : f.mode = _MODE_READ ∨ f.mode = _MODE_READ_EOF) :
    seek f off 0 = seekAbs f off := by
  simp [seek, check_can_seek_ok f hmode]

theorem seek0_reaches (content P : List Nat) (t : Nat) (f : BZ2File)
    (hR : Reaches content P t f) (hsrc : sourceDrain content = (P, true))
    (T : Nat) (hT : T ≤ P.length) :
    ∃ f', seek f (T : Int) 0 = .ok (T : Int) f' ∧ Reaches content P T f' ∧
      f'.size = f.size := by
  obtain ⟨f', h1, h2, h3⟩ := seekAbs_reaches content P t f hR hsrc T hT
  exact ⟨f', by rw [seek0_eq f (T : Int) hR.2.2.2.2.2.1, h1], h2, h3⟩

theorem drop_eq_nil_len (P : List Nat) (t : Nat) (h : P.drop t = []) (hle : t ≤ P.length) :
    t = P.length := by
  have := List.drop_eq_nil_iff.mp h
  omega

theorem peek_reaches (content P : List Nat) (t : Nat) (f : BZ2File)
    (hR : Reaches content P t f) :
    ∃ p f', peek f = .ok p f' ∧ Reaches content P t f' ∧ f'.pos = f.pos ∧
      (p = [] ↔ P.drop t = []) := by
  have hRkeep := hR
  obtain ⟨hcont, hpos, hle, hdinv, hdrain, hmode, hsize, hEOF⟩ := hR
  obtain ⟨d, hd, hinv⟩ := reaches_decomp f hdinv
  have hcheck := check_can_read_ok f hmode
  rcases hmode with hm | hm
  · -- _MODE_READ
    have hsplit : f.buffer ++ (drainD d (f.fpContent.drop f.fpPos)).1 = P.drop t ∧
        (drainD d (f.fpContent.drop f.fpPos)).2 = true := by
      have h := hdrain
      simp only [drain, hd] at h
      exact ⟨(Prod.ext_iff.mp h).1, (Prod.ext_iff.mp h).2⟩
    cases hdt : P.drop t with
    | nil =>
      have hbuf : f.buffer = [] := by
        have := hsplit.1
        rw [hdt] at this
        exact List.append_eq_nil.mp this |>.1
      have hdD : drainD d (f.fpContent.drop f.fpPos) = ([], true) := by
        have h1 := hsplit.1
        rw [hdt] at h1
        have := List.append_eq_nil.mp h1 |>.2
        rw [Prod.ext_iff]
        exact ⟨this, hsplit.2⟩
      have hspec := fill_buffer_spec f d hd hinv hbuf
      rw [hdD] at hspec
      obtain ⟨f', d', h1, h2, h3, h4, h5, h6, h7, h8, h9⟩ := hspec
      have hres : peek f = .ok [] f' := by
        simp [peek, hcheck, hm, _MODE_READ, _MODE_READ_EOF, h1]
      have ht2 : t = P.length := drop_eq_nil_len P t hdt hle
      refine ⟨[], f', hres, ?_, h4, by simp [hdt]⟩
      refine ⟨h6.trans hcont, h4.trans hpos, hle, ?_, ?_, Or.inr h2, Or.inr ?_, ?_⟩
      · rw [h7]
        exact h8
      · rw [h9, hdt]
      · rw [h3, hpos, ht2]
      · intro _
        refine ⟨?_, ?_⟩
        · rw [h4, hpos, ht2]
        · rw [h3, hpos, ht2]
    | cons x xs =>
      by_cases hbuf : f.buffer = []
      · have hdD : drainD d (f.fpContent.drop f.fpPos) = (x :: xs, true) := by
          have h1 := hsplit.1
          rw [hdt, hbuf, List.nil_append] at h1
          rw [Prod.ext_iff]
          exact ⟨h1, hsplit.2⟩
        have hspec := fill_buffer_spec f d hd hinv hbuf
        rw [hdD] at hspec
        obtain ⟨f', d', h1, h2, h3, h4, h5, h6, h7, h8, h9, h10⟩ := hspec
        have hres : peek f = .ok f'.buffer f' := by
          simp [peek, hcheck, hm, _MODE_READ, _MODE_READ_EOF, h1]
        refine ⟨f'.buffer, f', hres, ?_, h6, ?_⟩
        · refine ⟨h9.trans hcont, h6.trans hpos, hle, ?_, ?_, Or.inl (h7.trans hm), ?_, ?_⟩
          · rw [h3]
            exact h4
          · rw [h5, hdt]
          · rw [h8]
            exact hsize
          · intro hEOF2
            rw [h7, hm] at hEOF2
            exact absurd hEOF2 (by simp [_MODE_READ, _MODE_READ_EOF])
        · simp [h2, hdt]
      · have h1 := fill_buffer_nonempty f hbuf
        have hres : peek f = .ok f.buffer f := by
          simp [peek, hcheck, hm, _MODE_READ, _MODE_READ_EOF, h1]
        refine ⟨f.buffer, f, hres, hRkeep, rfl, ?_⟩
        simp [hbuf, hdt]
  · -- _MODE_READ_EOF
    obtain ⟨hpos2, hsize2⟩ := hEOF hm
    have ht2 : t = P.length := by rw [← hpos, hpos2]
    have hres : peek f = .ok [] f := by
      simp [peek, hcheck, hm, _MODE_READ_EOF]
    refine ⟨[], f, hres, hRkeep, rfl, ?_⟩
    simp [ht2, List.drop_length]



theorem drainD_new_encode (B rest : List Nat) :
    drainD BZ2Decompressor.new (escEncode B ++ 255 :: 0 :: rest) =
      (B ++ (drainClean rest).1, (drainClean rest).2) := by
  show drainD ⟨false, false, []⟩ _ = _
  rw [show drainD ⟨false, false, []⟩ (escEncode B ++ 255 :: 0 :: rest) =
    (let r := runDecomp false (escEncode B ++ 255 :: 0 :: rest);
     if r.fin then ((r.out ++ (drainClean r.unused).1), (drainClean r.unused).2)
     else (r.out, false)) from by simp [drainD]]
  rw [runDecomp_encode]
  simp

theorem sourceDrain_single (B : List Nat) :
    sourceDrain (escEncode B ++ [255, 0]) = (B, true) := by
  show sourceDrain (escEncode B ++ 255 :: 0 :: []) = (B, true)
  rw [sourceDrain, drainD_new_encode]
  simp [drainClean, drainCleanF]

theorem sourceDrain_double (a b : List Nat) :
    sourceDrain (escEncode a ++ 255 :: 0 :: (escEncode b ++ [255, 0])) = (a ++ b, true) := by
  rw [sourceDrain, drainD_new_encode]
  rw [show escEncode b ++ [255, 0] = escEncode b ++ 255 :: 0 :: [] from rfl,
    drainClean_encode]
  simp [drainClean, drainCleanF]

/-- C1: writing any byte sequence `B` at any compression level in 1..9
through a write-mode handle, closing it (which flushes the compressor),
and then reading the resulting compressed bytes to EOF through a read-mode
handle yields exactly `B`, byte-identical. -/
theorem c1_round_trip (B : List Nat) (level : Int) (h1 : 1 ≤ level) (h2 : level ≤ 9) :
    ∃ fw fw2 fr fr',
      BZ2File.init "w" level false [] = .ok fw ∧
      BZ2File.write fw B = .ok B.length fw2 ∧
      (BZ2File.close fw2).fpWritten = escEncode B ++ [255, 0] ∧
      BZ2File.init "r" level false ((BZ2File.close fw2).fpWritten) = .ok fr ∧
      BZ2File.read fr (-1) = .ok B fr' := by
  have hw :
      BZ2File.write
        { fpContent := [], fpPos := 0, fpWritten := [], fpCloseCount := 0, closefp := false,
          mode := _MODE_WRITE, pos := 0, size := -1, decompressor := none,
          compressor := some ⟨level⟩, buffer := [] } B =
      .ok B.length
        { fpContent := [], fpPos := 0, fpWritten := escEncode B, fpCloseCount := 0,
          closefp := false, mode := _MODE_WRITE, pos := B.length, size := -1,
          decompressor := none, compressor := some ⟨level⟩, buffer := [] } := by
    simp [write, _check_can_write, writableE, closed, _MODE_WRITE, _MODE_CLOSED,
      BZ2Compressor.compress]
  have hclose :
      (BZ2File.close
        { fpContent := [], fpPos := 0, fpWritten := escEncode B, fpCloseCount := 0,
          closefp := false, mode := _MODE_WRITE, pos := B.length, size := -1,
          decompressor := none, compressor := some ⟨level⟩, buffer := [] }).fpWritten =
      escEncode B ++ [255, 0] := by
    simp [close, _MODE_WRITE, _MODE_CLOSED, _MODE_READ, _MODE_READ_EOF, BZ2Compressor.flush]
  obtain ⟨fr, hinit, hRe, _, _, _, _⟩ :=
    reaches_init (escEncode B ++ [255, 0]) B level false h1 h2 (sourceDrain_single B)
  obtain ⟨fr', hread, _, _, _⟩ := read_reaches _ B 0 fr hRe (-1)
  have hread' : BZ2File.read fr (-1) = .ok B fr' := by
    rw [hread]
    simp
  refine ⟨_, _, fr, fr', init_write_eq [] level false h1 h2, hw, hclose, ?_, hread'⟩
  rw [hclose]
  exact hinit

/-- C10: the compression-level range check happens unconditionally at
construction, before the mode string is examined: for every mode string
(read modes included) an out-of-range level makes construction fail with
the range error before any endpoint state is established. -/
theorem c10_level_check (mode : String) (level : Int) (owns : Bool) (content : List Nat)
    (h : ¬ (1 ≤ level ∧ level ≤ 9)) :
    BZ2File.init mode level owns content =
      .error (Err.valueError "compresslevel must be between 1 and 9") := by
  simp [init, h]

/-- C6: a source whose raw bytes end while the decompressor still expects
more input to finish its logical segment makes a read to EOF fail with the
truncated-stream `EOFError`; the handle is not marked at end of stream and
the total size is not set. -/
theorem c6_truncation (content : List Nat) (h : (sourceDrain content).2 = false) :
    ∃ f0 f', BZ2File.init "r" 9 false content = .ok f0 ∧
      BZ2File.read f0 (-1) =
        .err (Err.eofError "Compressed file ended before the end-of-stream marker was reached") f' ∧
      f'.mode ≠ _MODE_READ_EOF ∧ f'.size = -1 := by
  obtain ⟨f', herr, hmode, hsize⟩ := read_all_trunc
    { fpContent := content, fpPos := 0, fpWritten := [], fpCloseCount := 0,
      closefp := false, mode := _MODE_READ, pos := 0, size := -1,
      decompressor := some BZ2Decompressor.new, compressor := none, buffer := [] }
    BZ2Decompressor.new true rfl (by intro _; rfl)
    (by simpa [drain, sourceDrain] using h)
  refine ⟨_, f', init_read_eq content 9 false (by norm_num) (by norm_num), ?_, ?_, ?_⟩
  · rw [show BZ2File.read
        { fpContent := content, fpPos := 0, fpWritten := [], fpCloseCount := 0,
          closefp := false, mode := _MODE_READ, pos := 0, size := -1,
          decompressor := some BZ2Decompressor.new, compressor := none, buffer := [] } (-1) =
        _read_all
        { fpContent := content, fpPos := 0, fpWritten := [], fpCloseCount := 0,
          closefp := false, mode := _MODE_READ, pos := 0, size := -1,
          decompressor := some BZ2Decompressor.new, compressor := none, buffer := [] } true
      from by simp [read, _check_can_read, readableE, closed, _MODE_READ, _MODE_READ_EOF,
        _MODE_CLOSED]]
    exact herr
  · rw [hmode]
    simp [_MODE_READ, _MODE_READ_EOF]
  · rw [hsize]



theorem tell_reaches (content P : List Nat) (t : Nat) (f : BZ2File)
    (hR : Reaches content P t f) : BZ2File.tell f = .ok (t : Int) f := by
  obtain ⟨_, hpos, _, _, _, hmode, _, _⟩ := hR
  rcases hmode with hm | hm <;>
    simp [tell, closed, hm, hpos, _MODE_READ, _MODE_READ_EOF, _MODE_CLOSED]

/-- C2: a source made of two independently terminated compressed segments
(the encodings of `a` and of `b`) reads to EOF as exactly `a ++ b`; a read
stopping at any mid-stream offset `T` then sees a non-empty `peek` and
non-empty further reads, so the segment join is never surfaced as a
spurious empty read. -/
theorem c2_multistream (a b : List Nat) (T : Nat) (hT : T < a.length + b.length) :
    ∃ fr, BZ2File.init "r" 9 false
        (escEncode a ++ 255 :: 0 :: (escEncode b ++ [255, 0])) = .ok fr ∧
      (∃ f1, BZ2File.read fr (-1) = .ok (a ++ b) f1) ∧
      (∃ fT, BZ2File.read fr (T : Int) = .ok ((a ++ b).take T) fT ∧
        (∃ p fp, BZ2File.peek fT = .ok p fp ∧ p ≠ []) ∧
        (∀ n : Int, 0 < n → ∃ dd fn, BZ2File.read fT n = .ok dd fn ∧ dd ≠ [])) := by
  have hlen : T < (a ++ b).length := by
    rw [List.length_append]
    exact hT
  obtain ⟨f0, hinit, hR0, _, _, _, _⟩ := reaches_init _ (a ++ b) 9 false (by norm_num)
    (by norm_num) (sourceDrain_double a b)
  refine ⟨f0, hinit, ?_, ?_⟩
  · obtain ⟨f1, hread, _, _, _⟩ := read_reaches _ (a ++ b) 0 f0 hR0 (-1)
    exact ⟨f1, by rw [hread]; simp⟩
  · obtain ⟨fT, hread, hRT, _, _⟩ := read_reaches _ (a ++ b) 0 f0 hR0 (T : Int)
    have hminT : (if (T : Int) < 0 then (a ++ b).length
        else min (0 + (T : Int).toNat) (a ++ b).length) = T := by
      rw [if_neg (by omega), Int.toNat_natCast]
      omega
    rw [hminT] at hRT
    have hdropT : (a ++ b).drop T ≠ [] := by
      rw [Ne, List.drop_eq_nil_iff]
      omega
    refine ⟨fT, ?_, ?_, ?_⟩
    · rw [hread]
      simp [Int.toNat_natCast]
    · obtain ⟨p, fp, hpk, _, _, hiff⟩ := peek_reaches _ (a ++ b) T fT hRT
      refine ⟨p, fp, hpk, ?_⟩
      intro hp
      exact hdropT (hiff.mp hp)
    · intro n hn
      obtain ⟨fn, hrdn, _, _, _⟩ := read_reaches _ (a ++ b) T fT hRT n
      refine ⟨_, fn, hrdn, ?_⟩
      rw [if_neg (by omega), Ne, List.take_eq_nil_iff]
      push_neg
      refine ⟨by omega, hdropT⟩

/-- C3: for a cleanly terminated source of decompressed content `P`,
after reading any `S` bytes, `seek(T, 0)` with `T ≤ |P|` returns `T`,
`tell()` then returns `T`, and reading to EOF returns exactly the suffix
of `P` from offset `T` — backward targets via rewind plus discard-read,
forward targets via discard-read. -/
theorem c3_seek_consistency (content P : List Nat)
    (hsrc : sourceDrain content = (P, true)) (S T : Nat) (hT : T ≤ P.length) :
    ∃ f0 f1 f2 f3,
      BZ2File.init "r" 9 false content = .ok f0 ∧
      BZ2File.read f0 (S : Int) = .ok (P.take S) f1 ∧
      BZ2File.seek f1 (T : Int) 0 = .ok (T : Int) f2 ∧
      BZ2File.tell f2 = .ok (T : Int) f2 ∧
      BZ2File.read f2 (-1) = .ok (P.drop T) f3 := by
  obtain ⟨f0, hinit, hR0, _, _, _, _⟩ := reaches_init content P 9 false (by norm_num)
    (by norm_num) hsrc
  obtain ⟨f1, hread1, hR1, _, _⟩ := read_reaches content P 0 f0 hR0 (S : Int)
  have hminS : (if (S : Int) < 0 then P.length else min (0 + (S : Int).toNat) P.length) =
      min S P.length := by
    rw [if_neg (by omega), Int.toNat_natCast]
    omega
  rw [hminS] at hR1
  obtain ⟨f2, hseek, hR2, _⟩ := seek0_reaches content P (min S P.length) f1 hR1 hsrc T hT
  obtain ⟨f3, hread3, _, _, _⟩ := read_reaches content P T f2 hR2 (-1)
  refine ⟨f0, f1, f2, f3, hinit, ?_, hseek, tell_reaches content P T f2 hR2, ?_⟩
  · rw [hread1]
    simp [Int.toNat_natCast]
  · rw [hread3]
    simp



theorem seek2_eq (f : BZ2File) (off : Int)
    (hmode : f.mode = _MODE_READ ∨ f.mode = _MODE_READ_EOF) :
    seek f off 2 =
      (if f.size < 0 then
        match _read_all f false with
        | .err e f₁ => .err e f₁
        | .ok _ f₁ => seekAbs f₁ (f₁.size + off)
      else seekAbs f (f.size + off)) := by
  simp [seek, check_can_seek_ok f hmode]

theorem reaches_after_drain (content P : List Nat) (t : Nat) (f : BZ2File)
    (hR : Reaches content P t f) :
    ∃ f₁, _read_all f false = .ok [] f₁ ∧ Reaches content P P.length f₁ ∧
      f₁.pos = P.length ∧ f₁.mode = _MODE_READ_EOF ∧ f₁.size = (P.length : Int) := by
  obtain ⟨hcont, hpos, hle, hdinv, hdrain, hmode, hsize, hEOF⟩ := hR
  obtain ⟨d, hd, hinv⟩ := reaches_decomp f hdinv
  obtain ⟨f₁, d', h1, h2, h3, h4, h5, h6, h7, h8, h9⟩ :=
    read_all_clean f d false hd hinv (by rw [hdrain])
  have hlen : (drain f).1.length = P.length - t := by
    rw [hdrain]
    exact List.length_drop _ _
  have hp1 : f₁.pos = P.length := by
    rw [h2, hpos, hlen]
    omega
  have hs1 : f₁.size = (P.length : Int) := by
    rw [h4, hpos, hlen]
    congr 1
    omega
  refine ⟨f₁, by rw [h1]; rfl, ?_, hp1, h3, hs1⟩
  refine ⟨h6.trans hcont, hp1, Nat.le_refl _, ?_, ?_, Or.inr h3, Or.inr hs1, fun _ => ⟨hp1, hs1⟩⟩
  · rw [h7]
    exact h8
  · rw [h9, List.drop_length]

/-- C4 counterexample: on a fresh read handle over a valid one-byte
source, `seek(-5, 0)` does not raise any error — it rewinds and returns
position 0 — and `seek(5, 2)` does not raise either — it clamps to the end
and returns the decompressed length 1.  The claim says both raise an
InvalidArgument (`ValueError`) error. -/
theorem c4_counterexample :
    isErr (BZ2File.seek (getHandle (BZ2File.init "r" 9 false [7, 255, 0])) (-5) 0) = false ∧
    okValD (-99) (BZ2File.seek (getHandle (BZ2File.init "r" 9 false [7, 255, 0])) (-5) 0) = 0 ∧
    isErr (BZ2File.seek (getHandle (BZ2File.init "r" 9 false [7, 255, 0])) 5 2) = false ∧
    okValD (-99) (BZ2File.seek (getHandle (BZ2File.init "r" 9 false [7, 255, 0])) 5 2) = 1 := by
  decide

/-- C4 amended: `seek(k, 0)` with `k < 0` does not raise; it rewinds and
returns position 0 (clamping to the start of the stream).  `seek(j, 2)`
with `j > 0` does not raise; it drains to the end (if the size is not yet
known) and returns the full decompressed length (clamping to the end).
The mode checks still happen synchronously first (see `c5` and `c8`). -/
theorem c4_amended (content P : List Nat) (hsrc : sourceDrain content = (P, true))
    (k j : Int) (hk : k < 0) (hj : 0 < j) :
    ∃ f0, BZ2File.init "r" 9 false content = .ok f0 ∧
      (∃ f', BZ2File.seek f0 k 0 = .ok 0 f') ∧
      (∃ f'', BZ2File.seek f0 j 2 = .ok (P.length : Int) f'') := by
  obtain ⟨f0, hinit, hR0, hsz0, hmd0, hps0, _⟩ := reaches_init content P 9 false (by norm_num)
    (by norm_num) hsrc
  refine ⟨f0, hinit, ?_, ?_⟩
  · -- negative absolute target: rewind, no forward read
    obtain ⟨hRw, _, _⟩ := rewind_reaches content P 0 f0 hR0 hsrc
    obtain ⟨dw, hdw, hinvw⟩ := reaches_decomp _ hRw.2.2.2.1
    have hpost := read_block_run (_rewind f0) dw k false hdw hinvw
    obtain ⟨f', d', h1, h2, h3, h4, h5, h6, h7, h8⟩ := hpost.1 (by
      rw [Int.toNat_eq_zero.mpr (le_of_lt hk)]
      exact Nat.zero_le _)
    have h1' : _read_block (_rewind f0) k false =
        Res.ok (if false = true then [] ++ (drain (_rewind f0)).1.take k.toNat else []) f' := h1
    have hfp : f'.pos = 0 := by
      rw [h2, hRw.2.1, Int.toNat_eq_zero.mpr (le_of_lt hk)]
    have hlt : k < ((f0.pos : Nat) : Int) := by
      rw [hps0]
      omega
    refine ⟨f', ?_⟩
    rw [seek0_eq f0 k hR0.2.2.2.2.2.1, seekAbs_rewind f0 k hlt, h1']
    show Res.ok ((f'.pos : Nat) : Int) f' = Res.ok 0 f'
    rw [hfp]
    rfl
  · -- positive end-relative target: drain for size, then clamp to the end
    obtain ⟨f₁, hdrn, hR1, hp1, hm1, hs1⟩ := reaches_after_drain content P 0 f0 hR0
    have hseq := seek2_eq f0 j hR0.2.2.2.2.2.1
    rw [if_pos (by rw [hsz0]; omega), hdrn] at hseq
    refine ⟨f₁, ?_⟩
    rw [hseq]
    show seekAbs f₁ (f₁.size + j) = Res.ok ((P.length : Nat) : Int) f₁
    rw [hs1, seekAbs_eof f₁ ((P.length : Int) + j) (by rw [hp1]; omega) hm1, hp1]

/-- C7: on a handle whose size is unknown, `seek(0, 2)` drains the stream
forward once to discover the full decompressed length, returns it, and
memoizes it in `total_size`; `tell()` then reports the length; a second
end-relative seek returns the same value with the state exactly unchanged
(no re-drain); a later rewind and full re-read leave `total_size` at the
same value. -/
theorem c7_end_seek (content P : List Nat) (hsrc : sourceDrain content = (P, true)) :
    ∃ f0 f1, BZ2File.init "r" 9 false content = .ok f0 ∧ f0.size = -1 ∧
      BZ2File.seek f0 0 2 = .ok (P.length : Int) f1 ∧
      f1.size = (P.length : Int) ∧
      BZ2File.tell f1 = .ok (P.length : Int) f1 ∧
      BZ2File.seek f1 0 2 = .ok (P.length : Int) f1 ∧
      (∃ f2, BZ2File.seek f1 0 0 = .ok 0 f2 ∧ f2.size = (P.length : Int) ∧
        ∃ f3, BZ2File.read f2 (-1) = .ok P f3 ∧ f3.size = (P.length : Int)) := by
  obtain ⟨f0, hinit, hR0, hsz0, hmd0, hps0, _⟩ := reaches_init content P 9 false (by norm_num)
    (by norm_num) hsrc
  obtain ⟨f₁, hdrn, hR1, hp1, hm1, hs1⟩ := reaches_after_drain content P 0 f0 hR0
  have hseek1 : BZ2File.seek f0 0 2 = .ok (P.length : Int) f₁ := by
    have hseq := seek2_eq f0 0 hR0.2.2.2.2.2.1
    rw [if_pos (by rw [hsz0]; omega), hdrn] at hseq
    rw [hseq]
    show seekAbs f₁ (f₁.size + 0) = Res.ok ((P.length : Nat) : Int) f₁
    rw [hs1, seekAbs_eof f₁ ((P.length : Int) + 0) (by rw [hp1]; omega) hm1, hp1]
  have hseek2 : BZ2File.seek f₁ 0 2 = .ok (P.length : Int) f₁ := by
    have hseq := seek2_eq f₁ 0 hR1.2.2.2.2.2.1
    rw [if_neg (by rw [hs1]; omega)] at hseq
    rw [hseq, hs1, seekAbs_eof f₁ ((P.length : Int) + 0) (by rw [hp1]; omega) hm1, hp1]
  obtain ⟨f2, hseek3, hR2, hs2⟩ := seek0_reaches content P P.length f₁ hR1 hsrc 0
    (Nat.zero_le _)
  obtain ⟨f3, hread3, _, _, hs3⟩ := read_reaches content P 0 f2 hR2 (-1)
  refine ⟨f0, f₁, hinit, hsz0, hseek1, hs1, tell_reaches content P P.length f₁ hR1, hseek2,
    f2, hseek3, by rw [hs2, hs1], f3, ?_, hs3 (by omega)⟩
  rw [hread3]
  simp



/-- C5: a handle in writing mode rejects every read-side operation
(`read`, `read1`, `peek`, `readinto`, `seek`) with `UnsupportedOperation`
and the state is left unchanged; a handle in a reading mode symmetrically
rejects `write` and `writelines`. -/
theorem c5_mode_enforcement (f g : BZ2File) (hf : f.mode = _MODE_WRITE)
    (hg : g.mode = _MODE_READ ∨ g.mode = _MODE_READ_EOF) (sz off wh : Int) (nb : Nat)
    (data : List Nat) (seq : List (List Nat)) :
    BZ2File.read f sz = .err (Err.unsupportedOperation "File not open for reading") f ∧
    BZ2File.read1 f sz = .err (Err.unsupportedOperation "File not open for reading") f ∧
    BZ2File.peek f = .err (Err.unsupportedOperation "File not open for reading") f ∧
    BZ2File.readinto f nb = .err (Err.unsupportedOperation "File not open for reading") f ∧
    BZ2File.seek f off wh =
      .err (Err.unsupportedOperation "Seeking is only supported on files open for reading") f ∧
    BZ2File.write g data = .err (Err.unsupportedOperation "File not open for writing") g ∧
    BZ2File.writelines g (data :: seq) =
      .err (Err.unsupportedOperation "File not open for writing") g := by
  have hcr : _check_can_read f = .error (Err.unsupportedOperation "File not open for reading") := by
    simp [_check_can_read, readableE, closed, hf, _MODE_WRITE, _MODE_CLOSED, _MODE_READ,
      _MODE_READ_EOF]
  have hcs : _check_can_seek f =
      .error (Err.unsupportedOperation "Seeking is only supported on files open for reading") := by
    simp [_check_can_seek, readableE, closed, hf, _MODE_WRITE, _MODE_CLOSED, _MODE_READ,
      _MODE_READ_EOF]
  have hcw : _check_can_write g =
      .error (Err.unsupportedOperation "File not open for writing") := by
    rcases hg with h | h <;>
      simp [_check_can_write, writableE, closed, h, _MODE_WRITE, _MODE_CLOSED, _MODE_READ,
        _MODE_READ_EOF]
  have hgnc : closed g = false := by
    rcases hg with h | h <;>
      simp [closed, h, _MODE_CLOSED, _MODE_READ, _MODE_READ_EOF]
  refine ⟨by simp [read, hcr], by simp [read1, hcr], by simp [peek, hcr],
    by simp [readinto, read, hcr], by simp [seek, hcs], by simp [write, hcw], ?_⟩
  simp [writelines, hgnc, writelinesLoop, write, hcw]

theorem close_mode (g : BZ2File) : (BZ2File.close g).mode = _MODE_CLOSED := by
  unfold close
  split
  · next h => exact eq_of_beq h
  · rfl

theorem close_of_closed (f : BZ2File) (h : f.mode = _MODE_CLOSED) :
    BZ2File.close f = f := by
  unfold close
  simp [h]

theorem close_close (g : BZ2File) : BZ2File.close (BZ2File.close g) = BZ2File.close g :=
  close_of_closed _ (close_mode g)

theorem close_count (g : BZ2File) :
    (BZ2File.close g).fpCloseCount ≤ g.fpCloseCount + 1 ∧
    (g.closefp = false → (BZ2File.close g).fpCloseCount = g.fpCloseCount) := by
  unfold close
  by_cases h1 : (g.mode == _MODE_CLOSED) = true <;>
    by_cases h2 : (g.mode == _MODE_READ || g.mode == _MODE_READ_EOF) = true <;>
      by_cases h3 : (g.mode == _MODE_WRITE) = true <;>
        by_cases h4 : g.closefp = true <;>
          simp [h1, h2, h3, h4]



/-- C8 counterexample: `seekable()` on a closed handle is not exempt from
the closed-resource check — it delegates to `readable()`, which raises the
`ValueError` for a closed file; the claim lists `seekable()` among the
operations that do not raise. -/
theorem c8_counterexample :
    BZ2File.seekable (BZ2File.close (getHandle (BZ2File.init "r" 9 false [7, 255, 0]))) =
      .err (Err.valueError "I/O operation on closed file")
        (BZ2File.close (getHandle (BZ2File.init "r" 9 false [7, 255, 0]))) := by
  decide

/-- C8 amended: `close()` is idempotent (a second call is the exact
identity, so the endpoint is never released twice, and it is released only
when owned); once a handle is closed, every public operation except
`close()` and the `closed` query — `seekable()` included — fails with the
closed-resource `ValueError` and leaves the state unchanged. -/
theorem c8_closed_enforcement (f g : BZ2File) (hf : f.mode = _MODE_CLOSED)
    (sz off wh : Int) (nb : Nat) (data : List Nat) (seq : List (List Nat)) :
    BZ2File.read f sz = .err (Err.valueError "I/O operation on closed file") f ∧
    BZ2File.read1 f sz = .err (Err.valueError "I/O operation on closed file") f ∧
    BZ2File.peek f = .err (Err.valueError "I/O operation on closed file") f ∧
    BZ2File.readinto f nb = .err (Err.valueError "I/O operation on closed file") f ∧
    BZ2File.readline f = .err (Err.valueError "I/O operation on closed file") f ∧
    BZ2File.readlines f = .err (Err.valueError "I/O operation on closed file") f ∧
    BZ2File.write f data = .err (Err.valueError "I/O operation on closed file") f ∧
    BZ2File.writelines f seq = .err (Err.valueError "I/O operation on closed file") f ∧
    BZ2File.seek f off wh = .err (Err.valueError "I/O operation on closed file") f ∧
    BZ2File.tell f = .err (Err.valueError "I/O operation on closed file") f ∧
    BZ2File.fileno f = .err (Err.valueError "I/O operation on closed file") f ∧
    BZ2File.readable f = .err (Err.valueError "I/O operation on closed file") f ∧
    BZ2File.writable f = .err (Err.valueError "I/O operation on closed file") f ∧
    BZ2File.seekable f = .err (Err.valueError "I/O operation on closed file") f ∧
    BZ2File.close (BZ2File.close g) = BZ2File.close g ∧
    (BZ2File.close g).fpCloseCount ≤ g.fpCloseCount + 1 ∧
    (g.closefp = false → (BZ2File.close g).fpCloseCount = g.fpCloseCount) := by
  have hcl : closed f = true := by simp [closed, hf]
  have hcr : _check_can_read f = .error (Err.valueError "I/O operation on closed file") := by
    simp [_check_can_read, readableE, hcl]
  have hcs : _check_can_seek f = .error (Err.valueError "I/O operation on closed file") := by
    simp [_check_can_seek, readableE, hcl]
  have hcw : _check_can_write f = .error (Err.valueError "I/O operation on closed file") := by
    simp [_check_can_write, writableE, hcl]
  have hrd : BZ2File.read f sz = .err (Err.valueError "I/O operation on closed file") f := by
    simp [read, hcr]
  have hrd1 : BZ2File.read f 1 = .err (Err.valueError "I/O operation on closed file") f := by
    simp [read, hcr]
  have hrl : BZ2File.readline f = .err (Err.valueError "I/O operation on closed file") f := by
    simp [readline, readlineF, hrd1]
  refine ⟨hrd, by simp [read1, hcr], by simp [peek, hcr], by simp [readinto, read, hcr],
    hrl, by simp [readlines, readlinesF, hrl], by simp [write, hcw],
    by simp [writelines, hcl], by simp [seek, hcs], by simp [tell, hcl],
    by simp [fileno, hcl], by simp [readable, readableE, hcl],
    by simp [writable, writableE, hcl], by simp [seekable, readableE, hcl],
    close_close g, (close_count g).1, (close_count g).2⟩

/-- C9: `peek` on a consistent read handle leaves the logical position and
the remaining data unchanged — any read after the peek returns exactly the
bytes a read without the peek would return, ending at the same position —
and the peeked bytes are non-empty except at the confirmed end of the
stream, where they are empty. -/
theorem c9_peek_frame (content P : List Nat) (t : Nat) (f : BZ2File)
    (hR : Reaches content P t f) :
    ∃ p f', BZ2File.peek f = .ok p f' ∧ f'.pos = f.pos ∧
      (p = [] ↔ t = P.length) ∧
      (∀ n : Int, ∃ g g',
        BZ2File.read f n = .ok (if n < 0 then P.drop t else (P.drop t).take n.toNat) g ∧
        BZ2File.read f' n = .ok (if n < 0 then P.drop t else (P.drop t).take n.toNat) g' ∧
        g.pos = g'.pos) := by
  have hle := hR.2.2.1
  obtain ⟨p, f', hpk, hR', hpos, hiff⟩ := peek_reaches content P t f hR
  refine ⟨p, f', hpk, hpos, ?_, ?_⟩
  · rw [hiff, List.drop_eq_nil_iff]
    omega
  · intro n
    obtain ⟨g, hg1, hg2, _, _⟩ := read_reaches content P t f hR n
    obtain ⟨g', hg1', hg2', _, _⟩ := read_reaches content P t f' hR' n
    exact ⟨g, g', hg1, hg1', by rw [hg2.2.1, hg2'.2.1]⟩



theorem c1_round_trip_witness :
    (1 ≤ (5 : Int)) ∧ ((5 : Int) ≤ 9) ∧
    (∃ fw fw2 fr fr',
      BZ2File.init "w" 5 false [] = .ok fw ∧
      BZ2File.write fw [0, 255, 7] = .ok [0, 255, 7].length fw2 ∧
      (BZ2File.close fw2).fpWritten = escEncode [0, 255, 7] ++ [255, 0] ∧
      BZ2File.init "r" 5 false ((BZ2File.close fw2).fpWritten) = .ok fr ∧
      BZ2File.read fr (-1) = .ok [0, 255, 7] fr') :=
  ⟨by decide, by decide, c1_round_trip [0, 255, 7] 5 (by decide) (by decide)⟩

theorem c2_multistream_witness :
    ((3 : Nat) < [65, 65, 65].length + [66, 66, 66].length) ∧
    (∃ fr, BZ2File.init "r" 9 false
        (escEncode [65, 65, 65] ++ 255 :: 0 :: (escEncode [66, 66, 66] ++ [255, 0])) =
        .ok fr ∧
      (∃ f1, BZ2File.read fr (-1) = .ok ([65, 65, 65] ++ [66, 66, 66]) f1) ∧
      (∃ fT, BZ2File.read fr ((3 : Nat) : Int) =
          .ok (([65, 65, 65] ++ [66, 66, 66]).take 3) fT ∧
        (∃ p fp, BZ2File.peek fT = .ok p fp ∧ p ≠ []) ∧
        (∀ n : Int, 0 < n → ∃ dd fn, BZ2File.read fT n = .ok dd fn ∧ dd ≠ []))) :=
  ⟨by decide, c2_multistream [65, 65, 65] [66, 66, 66] 3 (by decide)⟩

theorem c3_seek_consistency_witness :
    (sourceDrain [1, 2, 3, 255, 0] = ([1, 2, 3], true)) ∧ ((1 : Nat) ≤ [1, 2, 3].length) ∧
    (∃ f0 f1 f2 f3,
      BZ2File.init "r" 9 false [1, 2, 3, 255, 0] = .ok f0 ∧
      BZ2File.read f0 ((2 : Nat) : Int) = .ok ([1, 2, 3].take 2) f1 ∧
      BZ2File.seek f1 ((1 : Nat) : Int) 0 = .ok ((1 : Nat) : Int) f2 ∧
      BZ2File.tell f2 = .ok ((1 : Nat) : Int) f2 ∧
      BZ2File.read f2 (-1) = .ok ([1, 2, 3].drop 1) f3) :=
  ⟨by decide, by decide, c3_seek_consistency [1, 2, 3, 255, 0] [1, 2, 3] (by decide) 2 1
    (by decide)⟩

theorem c4_amended_witness :
    (sourceDrain [7, 255, 0] = ([7], true)) ∧ ((-5 : Int) < 0) ∧ ((0 : Int) < 5) ∧
    (∃ f0, BZ2File.init "r" 9 false [7, 255, 0] = .ok f0 ∧
      (∃ f', BZ2File.seek f0 (-5) 0 = .ok 0 f') ∧
      (∃ f'', BZ2File.seek f0 5 2 = .ok (([7] : List Nat).length : Int) f'')) :=
  ⟨by decide, by decide, by decide, c4_amended [7, 255, 0] [7] (by decide) (-5) 5 (by decide)
    (by decide)⟩

theorem c5_mode_enforcement_witness :
    ((getHandle (BZ2File.init "w" 9 false [])).mode = _MODE_WRITE) ∧
    ((getHandle (BZ2File.init "r" 9 false [7, 255, 0])).mode = _MODE_READ ∨
      (getHandle (BZ2File.init "r" 9 false [7, 255, 0])).mode = _MODE_READ_EOF) ∧
    (BZ2File.read (getHandle (BZ2File.init "w" 9 false [])) 3 =
        .err (Err.unsupportedOperation "File not open for reading")
          (getHandle (BZ2File.init "w" 9 false [])) ∧
      BZ2File.read1 (getHandle (BZ2File.init "w" 9 false [])) 3 =
        .err (Err.unsupportedOperation "File not open for reading")
          (getHandle (BZ2File.init "w" 9 false [])) ∧
      BZ2File.peek (getHandle (BZ2File.init "w" 9 false [])) =
        .err (Err.unsupportedOperation "File not open for reading")
          (getHandle (BZ2File.init "w" 9 false [])) ∧
      BZ2File.readinto (getHandle (BZ2File.init "w" 9 false [])) 4 =
        .err (Err.unsupportedOperation "File not open for reading")
          (getHandle (BZ2File.init "w" 9 false [])) ∧
      BZ2File.seek (getHandle (BZ2File.init "w" 9 false [])) 0 0 =
        .err (Err.unsupportedOperation "Seeking is only supported on files open for reading")
          (getHandle (BZ2File.init "w" 9 false [])) ∧
      BZ2File.write (getHandle (BZ2File.init "r" 9 false [7, 255, 0])) [1] =
        .err (Err.unsupportedOperation "File not open for writing")
          (getHandle (BZ2File.init "r" 9 false [7, 255, 0])) ∧
      BZ2File.writelines (getHandle (BZ2File.init "r" 9 false [7, 255, 0])) ([1] :: []) =
        .err (Err.unsupportedOperation "File not open for writing")
          (getHandle (BZ2File.init "r" 9 false [7, 255, 0]))) :=
  ⟨by decide, by decide, c5_mode_enforcement (getHandle (BZ2File.init "w" 9 false []))
    (getHandle (BZ2File.init "r" 9 false [7, 255, 0])) (by decide) (by decide) 3 0 0 4 [1] []⟩

theorem c6_truncation_witness :
    ((sourceDrain [7]).2 = false) ∧
    (∃ f0 f', BZ2File.init "r" 9 false [7] = .ok f0 ∧
      BZ2File.read f0 (-1) =
        .err (Err.eofError "Compressed file ended before the end-of-stream marker was reached") f' ∧
      f'.mode ≠ _MODE_READ_EOF ∧ f'.size = -1) :=
  ⟨by decide, c6_truncation [7] (by decide)⟩

theorem c7_end_seek_witness :
    (sourceDrain [1, 2, 3, 255, 0] = ([1, 2, 3], true)) ∧
    (∃ f0 f1, BZ2File.init "r" 9 false [1, 2, 3, 255, 0] = .ok f0 ∧ f0.size = -1 ∧
      BZ2File.seek f0 0 2 = .ok (([1, 2, 3] : List Nat).length : Int) f1 ∧
      f1.size = (([1, 2, 3] : List Nat).length : Int) ∧
      BZ2File.tell f1 = .ok (([1, 2, 3] : List Nat).length : Int) f1 ∧
      BZ2File.seek f1 0 2 = .ok (([1, 2, 3] : List Nat).length : Int) f1 ∧
      (∃ f2, BZ2File.seek f1 0 0 = .ok 0 f2 ∧
        f2.size = (([1, 2, 3] : List Nat).length : Int) ∧
        ∃ f3, BZ2File.read f2 (-1) = .ok [1, 2, 3] f3 ∧
          f3.size = (([1, 2, 3] : List Nat).length : Int))) :=
  ⟨by decide, c7_end_seek [1, 2, 3, 255, 0] [1, 2, 3] (by decide)⟩

theorem c8_closed_enforcement_witness :
    ((BZ2File.close (getHandle (BZ2File.init "r" 9 false [7, 255, 0]))).mode =
      _MODE_CLOSED) ∧
    (BZ2File.read (BZ2File.close (getHandle (BZ2File.init "r" 9 false [7, 255, 0]))) 3 =
        .err (Err.valueError "I/O operation on closed file")
          (BZ2File.close (getHandle (BZ2File.init "r" 9 false [7, 255, 0]))) ∧
      BZ2File.read1 (BZ2File.close (getHandle (BZ2File.init "r" 9 false [7, 255, 0]))) 3 =
        .err (Err.valueError "I/O operation on closed file")
          (BZ2File.close (getHandle (BZ2File.init "r" 9 false [7, 255, 0]))) ∧
      BZ2File.peek (BZ2File.close (getHandle (BZ2File.init "r" 9 false [7, 255, 0]))) =
        .err (Err.valueError "I/O operation on closed file")
          (BZ2File.close (getHandle (BZ2File.init "r" 9 false [7, 255, 0]))) ∧
      BZ2File.readinto (BZ2File.close (getHandle (BZ2File.init "r" 9 false [7, 255, 0]))) 4 =
        .err (Err.valueError "I/O operation on closed file")
          (BZ2File.close (getHandle (BZ2File.init "r" 9 false [7, 255, 0]))) ∧
      BZ2File.readline (BZ2File.close (getHandle (BZ2File.init "r" 9 false [7, 255, 0]))) =
        .err (Err.valueError "I/O operation on closed file")
          (BZ2File.close (getHandle (BZ2File.init "r" 9 false [7, 255, 0]))) ∧
      BZ2File.readlines (BZ2File.close (getHandle (BZ2File.init "r" 9 false [7, 255, 0]))) =
        .err (Err.valueError "I/O operation on closed file")
          (BZ2File.close (getHandle (BZ2File.init "r" 9 false [7, 255, 0]))) ∧
      BZ2File.write (BZ2File.close (getHandle (BZ2File.init "r" 9 false [7, 255, 0]))) [1] =
        .err (Err.valueError "I/O operation on closed file")
          (BZ2File.close (getHandle (BZ2File.init "r" 9 false [7, 255, 0]))) ∧
      BZ2File.writelines (BZ2File.close (getHandle (BZ2File.init "r" 9 false [7, 255, 0])))
          [] =
        .err (Err.valueError "I/O operation on closed file")
          (BZ2File.close (getHandle (BZ2File.init "r" 9 false [7, 255, 0]))) ∧
      BZ2File.seek (BZ2File.close (getHandle (BZ2File.init "r" 9 false [7, 255, 0]))) 0 0 =
        .err (Err.valueError "I/O operation on closed file")
          (BZ2File.close (getHandle (BZ2File.init "r" 9 false [7, 255, 0]))) ∧
      BZ2File.tell (BZ2File.close (getHandle (BZ2File.init "r" 9 false [7, 255, 0]))) =
        .err (Err.valueError "I/O operation on closed file")
          (BZ2File.close (getHandle (BZ2File.init "r" 9 false [7, 255, 0]))) ∧
      BZ2File.fileno (BZ2File.close (getHandle (BZ2File.init "r" 9 false [7, 255, 0]))) =
        .err (Err.valueError "I/O operation on closed file")
          (BZ2File.close (getHandle (BZ2File.init "r" 9 false [7, 255, 0]))) ∧
      BZ2File.readable (BZ2File.close (getHandle (BZ2File.init "r" 9 false [7, 255, 0]))) =
        .err (Err.valueError "I/O operation on closed file")
          (BZ2File.close (getHandle (BZ2File.init "r" 9 false [7, 255, 0]))) ∧
      BZ2File.writable (BZ2File.close (getHandle (BZ2File.init "r" 9 false [7, 255, 0]))) =
        .err (Err.valueError "I/O operation on closed file")
          (BZ2File.close (getHandle (BZ2File.init "r" 9 false [7, 255, 0]))) ∧
      BZ2File.seekable (BZ2File.close (getHandle (BZ2File.init "r" 9 false [7, 255, 0]))) =
        .err (Err.valueError "I/O operation on closed file")
          (BZ2File.close (getHandle (BZ2File.init "r" 9 false [7, 255, 0]))) ∧
      BZ2File.close (BZ2File.close (getHandle (BZ2File.init "r" 9 true [7, 255, 0]))) =
        BZ2File.close (getHandle (BZ2File.init "r" 9 true [7, 255, 0])) ∧
      (BZ2File.close (getHandle (BZ2File.init "r" 9 true [7, 255, 0]))).fpCloseCount ≤
        (getHandle (BZ2File.init "r" 9 true [7, 255, 0])).fpCloseCount + 1 ∧
      ((getHandle (BZ2File.init "r" 9 true [7, 255, 0])).closefp = false →
        (BZ2File.close (getHandle (BZ2File.init "r" 9 true [7, 255, 0]))).fpCloseCount =
          (getHandle (BZ2File.init "r" 9 true [7, 255, 0])).fpCloseCount)) :=
  ⟨by decide, c8_closed_enforcement
    (BZ2File.close (getHandle (BZ2File.init "r" 9 false [7, 255, 0])))
    (getHandle (BZ2File.init "r" 9 true [7, 255, 0])) (by decide) 3 0 0 4 [1] []⟩

theorem c9_peek_frame_witness :
    Reaches [1, 2, 3, 255, 0] [1, 2, 3] 1
      (resHandle (BZ2File.read (getHandle (BZ2File.init "r" 9 false [1, 2, 3, 255, 0])) 1)) ∧
    (∃ p f', BZ2File.peek
        (resHandle (BZ2File.read (getHandle (BZ2File.init "r" 9 false [1, 2, 3, 255, 0])) 1)) =
        .ok p f' ∧
      f'.pos = (resHandle
        (BZ2File.read (getHandle (BZ2File.init "r" 9 false [1, 2, 3, 255, 0])) 1)).pos ∧
      (p = [] ↔ (1 : Nat) = [1, 2, 3].length) ∧
      (∀ n : Int, ∃ g g',
        BZ2File.read
          (resHandle (BZ2File.read (getHandle (BZ2File.init "r" 9 false [1, 2, 3, 255, 0])) 1))
          n = .ok (if n < 0 then [1, 2, 3].drop 1 else ([1, 2, 3].drop 1).take n.toNat) g ∧
        BZ2File.read f' n =
          .ok (if n < 0 then [1, 2, 3].drop 1 else ([1, 2, 3].drop 1).take n.toNat) g' ∧
        g.pos = g'.pos)) :=
  ⟨by decide, c9_peek_frame [1, 2, 3, 255, 0] [1, 2, 3] 1
    (resHandle (BZ2File.read (getHandle (BZ2File.init "r" 9 false [1, 2, 3, 255, 0])) 1))
    (by decide)⟩

theorem c10_level_check_witness :
    (¬ (1 ≤ (0 : Int) ∧ (0 : Int) ≤ 9)) ∧
    BZ2File.init "r" 0 false [] =
      .error (Err.valueError "compresslevel must be between 1 and 9") :=
  ⟨by decide, c10_level_check "r" 0 false [] (by decide)⟩


end BZ2File
